import Mathlib

/-!
Verification of the delayqueue package (delayqueue.go) against its
natural-language specification.

The backing store is modelled as an association list from keys to Redis
values.  Keys are modelled by the inductive type `RKey`, whose constructors
correspond one-to-one to the key strings built in `NewDelayQueue` and
`genMsgKey`:

  * `RKey.pending q`  = "dp:" ++ q ++ ":pending"
  * `RKey.ready q`    = "dp:" ++ q ++ ":ready"
  * `RKey.unack q`    = "dp:" ++ q ++ ":unack"
  * `RKey.retryL q`   = "dp:" ++ q ++ ":retry"
  * `RKey.retryCnt q` = "dp:" ++ q ++ ":retry:cnt"
  * `RKey.garbage q`  = "dp:" ++ q ++ ":garbage"
  * `RKey.msg q id`   = "dp:" ++ q ++ ":msg:" ++ id

For one fixed queue name these rendered strings are pairwise distinct, so
distinct `RKey`s faithfully model distinct Redis keys of one queue handle.

Redis collection values are modelled by `RVal`.  Sorted-set entries are kept
ordered by (score, member); hash values hold the integer retry counters; the
string value of a payload key records the payload together with the TTL it
was stored with (key expiry itself is wall-clock behaviour, so an expired
key is simply modelled as an absent key).  Machine scores and times are
modelled as `Int` (unix seconds); the Go `uint` conversion in the
retry-count option is modelled explicitly modulo 2^64.
-/

namespace DQ

/-- Keys of one delay queue in the backing store, see the module comment. -/
inductive RKey where
  | pending (q : String)
  | ready (q : String)
  | unack (q : String)
  | retryL (q : String)
  | retryCnt (q : String)
  | garbage (q : String)
  | msg (q : String) (id : String)
deriving DecidableEq

/-- Values a key can hold in the backing store. -/
inductive RVal where
  | zset (entries : List (String × Int))
  | list (elems : List String)
  | hash (fields : List (String × Int))
  | set (members : List String)
  | str (payload : String) (ttl : Int)
deriving DecidableEq

/-- The backing store: an association list from keys to values.  A key that
is absent models a Redis key that does not exist (Redis removes collection
keys when they become empty; the command models below do the same). -/
abbrev Store := List (RKey × RVal)

/-- Look up a key in the store. -/
def getV : Store → RKey → Option RVal
  | [], _ => none
  | (k0, v0) :: rest, k => if k = k0 then some v0 else getV rest k

/-- Write a key (replace the first binding, or append a new one). -/
def setV : Store → RKey → RVal → Store
  | [], k, v => [(k, v)]
  | (k0, v0) :: rest, k, v => if k = k0 then (k, v) :: rest else (k0, v0) :: setV rest k v

/-- Delete a key. -/
def delV : Store → RKey → Store
  | [], _ => []
  | (k0, v0) :: rest, k => if k = k0 then delV rest k else (k0, v0) :: delV rest k

@[simp] theorem getV_setV_self (st : Store) (k : RKey) (v : RVal) :
    getV (setV st k v) k = some v := by
  induction st with
  | nil => simp [getV, setV]
  | cons p rest ih =>
    obtain ⟨k0, v0⟩ := p
    by_cases h : k = k0 <;> simp [getV, setV, h, ih]

theorem getV_setV_ne (st : Store) {k k' : RKey} (v : RVal) (h : k' ≠ k) :
    getV (setV st k v) k' = getV st k' := by
  induction st with
  | nil => simp [getV, setV, h]
  | cons p rest ih =>
    obtain ⟨k0, v0⟩ := p
    by_cases h0 : k = k0
    · subst h0; simp [getV, setV, h]
    · by_cases h1 : k' = k0 <;> simp [getV, setV, h0, h1, ih]

@[simp] theorem getV_delV_self (st : Store) (k : RKey) :
    getV (delV st k) k = none := by
  induction st with
  | nil => simp [getV, delV]
  | cons p rest ih =>
    obtain ⟨k0, v0⟩ := p
    by_cases h : k = k0
    · subst h; simp [delV, ih]
    · simp [getV, delV, h, ih]

theorem getV_delV_ne (st : Store) {k k' : RKey} (h : k' ≠ k) :
    getV (delV st k) k' = getV st k' := by
  induction st with
  | nil => simp [getV, delV]
  | cons p rest ih =>
    obtain ⟨k0, v0⟩ := p
    by_cases h0 : k = k0
    · subst h0; simp [getV, delV, h, ih]
    · by_cases h1 : k' = k0 <;> simp [getV, delV, h0, h1, ih]

/-! ## Redis commands

Each command is modelled on the association-list store.  Commands that can
hit a value of the wrong type return the Redis `WRONGTYPE` error through
`Except`.  Collections that become empty are removed from the store, as
Redis removes empty collection keys. -/

/-- The Redis wrong-type error text (abbreviated). -/
def wrongType : String := "WRONGTYPE"

/-- Write a (possibly empty) list value: an empty list deletes the key. -/
def putList (st : Store) (k : RKey) (l : List String) : Store :=
  if l = [] then delV st k else setV st k (.list l)

/-- Write a (possibly empty) sorted-set value. -/
def putZ (st : Store) (k : RKey) (zs : List (String × Int)) : Store :=
  if zs = [] then delV st k else setV st k (.zset zs)

/-- Write a (possibly empty) hash value. -/
def putH (st : Store) (k : RKey) (h : List (String × Int)) : Store :=
  if h = [] then delV st k else setV st k (.hash h)

/-- Write a (possibly empty) set value. -/
def putS (st : Store) (k : RKey) (s : List String) : Store :=
  if s = [] then delV st k else setV st k (.set s)

/-- Strict (score, member) comparison used to keep sorted sets ordered the
way Redis orders them: by score, ties broken lexicographically by member. -/
def zless (a b : String × Int) : Bool :=
  decide (a.2 < b.2) || (decide (a.2 = b.2) && decide (a.1 < b.1))

/-- Insert an entry into a score-ordered entry list. -/
def zinsert (e : String × Int) : List (String × Int) → List (String × Int)
  | [] => [e]
  | x :: xs => if zless e x then e :: x :: xs else x :: zinsert e xs

/-- `ZADD` on the raw entry list: replace any entry of the same member,
then insert in score order. -/
def zaddList (zs : List (String × Int)) (score : Int) (m : String) :
    List (String × Int) :=
  zinsert (m, score) (zs.filter (fun p => !(p.1 == m)))

/-- `ZADD key score member`. -/
def zadd (st : Store) (k : RKey) (score : Int) (m : String) : Except String Store :=
  match getV st k with
  | none => .ok (setV st k (.zset (zaddList [] score m)))
  | some (.zset zs) => .ok (setV st k (.zset (zaddList zs score m)))
  | some _ => .error wrongType

/-- `ZRANGEBYSCORE key lo hi` (members only, ascending). -/
def zrangebyscore (st : Store) (k : RKey) (lo hi : Int) : Except String (List String) :=
  match getV st k with
  | none => .ok []
  | some (.zset zs) =>
      .ok ((zs.filter (fun p => decide (lo ≤ p.2) && decide (p.2 ≤ hi))).map (·.1))
  | some _ => .error wrongType

/-- `ZREMRANGEBYSCORE key lo hi`. -/
def zremrangebyscore (st : Store) (k : RKey) (lo hi : Int) : Except String Store :=
  match getV st k with
  | none => .ok st
  | some (.zset zs) =>
      .ok (putZ st k (zs.filter (fun p => !(decide (lo ≤ p.2) && decide (p.2 ≤ hi)))))
  | some _ => .error wrongType

/-- `ZREM key member`. -/
def zrem (st : Store) (k : RKey) (m : String) : Except String Store :=
  match getV st k with
  | none => .ok st
  | some (.zset zs) => .ok (putZ st k (zs.filter (fun p => !(p.1 == m))))
  | some _ => .error wrongType

/-- `LPUSH key v1 … vn` : each value in turn becomes the new head. -/
def lpush (st : Store) (k : RKey) (vals : List String) : Except String Store :=
  match getV st k with
  | none => .ok (putList st k (vals.foldl (fun l v => v :: l) []))
  | some (.list l) => .ok (putList st k (vals.foldl (fun l v => v :: l) l))
  | some _ => .error wrongType

/-- `RPOP key` : pop from the tail, i.e. the element pushed earliest. -/
def rpop (st : Store) (k : RKey) : Except String (Option String × Store) :=
  match getV st k with
  | none => .ok (none, st)
  | some (.list l) =>
      match l.getLast? with
      | none => .ok (none, st)
      | some x => .ok (some x, putList st k l.dropLast)
  | some _ => .error wrongType

/-- Field lookup on a raw hash value. -/
def hfield (h : List (String × Int)) (f : String) : Option Int :=
  (h.find? (fun p => p.1 == f)).map (·.2)

/-- Set a field on a raw hash value (hash field order carries no meaning in
Redis, so the updated binding is placed last). -/
def hfieldSet (h : List (String × Int)) (f : String) (v : Int) : List (String × Int) :=
  h.filter (fun p => !(p.1 == f)) ++ [(f, v)]

/-- `HSET key field value`. -/
def hset (st : Store) (k : RKey) (f : String) (v : Int) : Except String Store :=
  match getV st k with
  | none => .ok (setV st k (.hash [(f, v)]))
  | some (.hash h) => .ok (setV st k (.hash (hfieldSet h f v)))
  | some _ => .error wrongType

/-- `HMGET key f1 … fn`. A missing key yields all-nil. -/
def hmget (st : Store) (k : RKey) (fs : List String) : Except String (List (Option Int)) :=
  match getV st k with
  | none => .ok (fs.map (fun _ => none))
  | some (.hash h) => .ok (fs.map (hfield h))
  | some _ => .error wrongType

/-- `HINCRBY key field delta` (creates a missing field at 0). -/
def hincrby (st : Store) (k : RKey) (f : String) (d : Int) : Except String (Int × Store) :=
  match getV st k with
  | none => .ok (d, setV st k (.hash [(f, d)]))
  | some (.hash h) =>
      let v := (hfield h f).getD 0 + d
      .ok (v, setV st k (.hash (hfieldSet h f v)))
  | some _ => .error wrongType

/-- `HDEL key field`. -/
def hdel (st : Store) (k : RKey) (f : String) : Except String Store :=
  match getV st k with
  | none => .ok st
  | some (.hash h) => .ok (putH st k (h.filter (fun p => !(p.1 == f))))
  | some _ => .error wrongType

/-- `SADD key member`. -/
def sadd (st : Store) (k : RKey) (m : String) : Except String Store :=
  match getV st k with
  | none => .ok (setV st k (.set [m]))
  | some (.set s) => .ok (setV st k (.set (if s.contains m then s else m :: s)))
  | some _ => .error wrongType

/-- `SMEMBERS key`. -/
def smembers (st : Store) (k : RKey) : Except String (List String) :=
  match getV st k with
  | none => .ok []
  | some (.set s) => .ok s
  | some _ => .error wrongType

/-- `SREM key m1 … mn`. -/
def srem (st : Store) (k : RKey) (ms : List String) : Except String Store :=
  match getV st k with
  | none => .ok st
  | some (.set s) => .ok (putS st k (s.filter (fun x => !(ms.contains x))))
  | some _ => .error wrongType

/-- `SET key payload ttl` : overwrites any previous value unconditionally. -/
def setStr (st : Store) (k : RKey) (payload : String) (ttl : Int) : Store :=
  setV st k (.str payload ttl)

/-- `GET key` for string keys: a missing key is `none` (redis.Nil). -/
def getStr (st : Store) (k : RKey) : Except String (Option String) :=
  match getV st k with
  | none => .ok none
  | some (.str p _) => .ok (some p)
  | some _ => .error wrongType

/-- `DEL k1 … kn` : missing keys are ignored, any value type is removed. -/
def delKeys (st : Store) (ks : List RKey) : Store :=
  ks.foldl delV st

/-! ## Observation helpers -/

/-- The integer value of a field of a hash key (`none` when absent). -/
def hget (st : Store) (k : RKey) (f : String) : Option Int :=
  match getV st k with
  | some (.hash h) => hfield h f
  | _ => none

/-- The score of a member of a sorted-set key (`none` when absent). -/
def zscore (st : Store) (k : RKey) (m : String) : Option Int :=
  match getV st k with
  | some (.zset zs) => (zs.find? (fun p => p.1 == m)).map (·.2)
  | _ => none

/-- Sorted-set membership. -/
def zmem (st : Store) (k : RKey) (m : String) : Bool :=
  match getV st k with
  | some (.zset zs) => zs.any (fun p => p.1 == m)
  | _ => false

/-- List membership. -/
def lmem (st : Store) (k : RKey) (x : String) : Bool :=
  match getV st k with
  | some (.list l) => l.contains x
  | _ => false

/-- Set membership. -/
def smem (st : Store) (k : RKey) (m : String) : Bool :=
  match getV st k with
  | some (.set s) => s.contains m
  | _ => false

/-- Shape predicates for a well-typed store. -/
def noneOrZset : Option RVal → Bool
  | none => true
  | some (.zset _) => true
  | _ => false

/-- A key that is absent or holds a list. -/
def noneOrList : Option RVal → Bool
  | none => true
  | some (.list _) => true
  | _ => false

/-- A key that is absent or holds a hash. -/
def noneOrHash : Option RVal → Bool
  | none => true
  | some (.hash _) => true
  | _ => false

/-- A key that is absent or holds a set. -/
def noneOrSet : Option RVal → Bool
  | none => true
  | some (.set _) => true
  | _ => false

/-! ## The Lua scripts

A script receives the key array `KEYS` (1-indexed in Lua) and runs its
commands atomically.  A Redis script is *not* a transaction: when a command
or the Lua interpreter raises an error mid-script, the writes already
performed stay.  `ScriptOut` therefore carries the store in the failure
case as well.  `ScriptOut.ok none` models the script returning Lua `nil`,
which the go-redis client surfaces as the `redis.Nil` sentinel. -/

/-- Outcome of an atomic script run. -/
inductive ScriptOut where
  | ok (ret : Option String) (st : Store)
  | fail (e : String) (st : Store)
deriving DecidableEq

/-- `KEYS[i]` (1-indexed); `none` models Lua `nil` for an index beyond the
key array that was passed to `Eval`. -/
def keyAt (keys : List RKey) (i : Nat) : Option RKey :=
  keys.get? (i - 1)

/-- `pending2ReadyScript`, transliterated from delayqueue.go lines 149-158:

```
local msgs = redis.call('ZRangeByScore', KEYS[2], '0', ARGV[1])  -- get ready msg
if (#msgs == 0) then return end
local args2 = \x7b'LPush', KEYS[3]\x7d -- push into ready
for _,v in ipairs(msgs) do
    table.insert(args2,v)
end
redis.call(unpack(args2))
redis.call('ZRemRangeByScore',KEYS[1],'0',ARGV[1])
```

Note that the script reads the eligible members from `KEYS[2]` and pushes
into `KEYS[3]`, while its caller `pending2Ready` passes only the two keys
`[pendingKey, readyKey]` — so the range read happens on the *ready* key and
the push targets `KEYS[3]`, which is Lua `nil`.  A `redis.call` whose key
argument is nil raises a script error; we model that branch as `fail`. -/
def pending2ReadyScript (keys : List RKey) (now : Int) (st : Store) : ScriptOut :=
  match keyAt keys 2 with
  | none => .fail "nil key" st
  | some k2 =>
    match zrangebyscore st k2 0 now with
    | .error e => .fail e st
    | .ok msgs =>
      if msgs = [] then .ok none st
      else
        match keyAt keys 3 with
        | none => .fail "Lua redis lib command arguments must be strings or integers" st
        | some k3 =>
          match lpush st k3 msgs with
          | .error e => .fail e st
          | .ok st1 =>
            match keyAt keys 1 with
            | none => .fail "nil key" st1
            | some k1 =>
              match zremrangebyscore st1 k1 0 now with
              | .error e => .fail e st1
              | .ok st2 => .ok none st2

/-- `ready2UnackScript`, transliterated from delayqueue.go lines 173-178:

```
local msg = redis.call('RPop',KEYS[1])
if (not msg) then return end
redis.call('ZAdd',KEYS[2],ARGV[1],msg)
return msg
```
-/
def ready2UnackScript (keys : List RKey) (deadline : Int) (st : Store) : ScriptOut :=
  match keyAt keys 1 with
  | none => .fail "nil key" st
  | some k1 =>
    match rpop st k1 with
    | .error e => .fail e st
    | .ok (none, st1) => .ok none st1
    | .ok (some m, st1) =>
      match keyAt keys 2 with
      | none => .fail "nil key" st1
      | some k2 =>
        match zadd st1 k2 deadline m with
        | .error e => .fail e st1
        | .ok st2 => .ok (some m) st2

/-- One iteration step list of `unack2RetryScript`'s `for i,v in
ipairs(retryCounts)` loop.  `pairs` zips each message id with the count
`HMGet` returned for it.  Lua's `tonumber(v) > 0` raises
"attempt to compare nil with a number" when `v` is nil/false, i.e. when the
retry-count hash had no entry for the id; the writes of earlier iterations
stay (scripts do not roll back). -/
def u2rLoop (kCnt kRetry kGarbage : RKey) :
    List (String × Option Int) → Store → ScriptOut
  | [], st => .ok none st
  | (_, none) :: _, st => .fail "attempt to compare nil with a number" st
  | (k, some c) :: rest, st =>
    if 0 < c then
      match hincrby st kCnt k (-1) with
      | .error e => .fail e st
      | .ok (_, st1) =>
        match lpush st1 kRetry [k] with
        | .error e => .fail e st1
        | .ok st2 => u2rLoop kCnt kRetry kGarbage rest st2
    else
      match hdel st kCnt k with
      | .error e => .fail e st
      | .ok st1 =>
        match sadd st1 kGarbage k with
        | .error e => .fail e st1
        | .ok st2 => u2rLoop kCnt kRetry kGarbage rest st2

/-- `unack2RetryScript`, transliterated from delayqueue.go lines 258-273:

```
local msgs = redis.call('ZRangeByScore', KEYS[1], '0', ARGV[1])  -- get retry msg
if (#msgs == 0) then return end
local retryCounts = redis.call('HMGet', KEYS[2], unpack(msgs)) -- get retry count
for i,v in ipairs(retryCounts) do
    local k = msgs[i]
    if tonumber(v) > 0 then
        redis.call("HIncrBy", KEYS[2], k, -1) -- reduce retry count
        redis.call("LPush", KEYS[3], k) -- add to retry
    else
        redis.call("HDel", KEYS[2], k) -- del retry count
        redis.call("SAdd", KEYS[4], k) -- add to garbage
    end
end
redis.call('ZRemRangeByScore', KEYS[1], '0', ARGV[1])  -- remove msgs from unack
```
-/
def unack2RetryScript (keys : List RKey) (now : Int) (st : Store) : ScriptOut :=
  match keyAt keys 1, keyAt keys 2, keyAt keys 3, keyAt keys 4 with
  | some k1, some k2, some k3, some k4 =>
    (match zrangebyscore st k1 0 now with
     | .error e => .fail e st
     | .ok msgs =>
       if msgs = [] then .ok none st
       else
         match hmget st k2 msgs with
         | .error e => .fail e st
         | .ok counts =>
           match u2rLoop k2 k3 k4 (msgs.zip counts) st with
           | .fail e st1 => .fail e st1
           | .ok _ st1 =>
             match zremrangebyscore st1 k1 0 now with
             | .error e => .fail e st1
             | .ok st2 => .ok none st2)
  | _, _, _, _ => .fail "nil key" st

/-! ## The queue handle and the Go-level operations

Wall-clock reads (`time.Now()`) are modelled by an explicit `now : Int`
parameter (unix seconds); durations become integer numbers of seconds.
The freshly generated UUID of `SendScheduleMsg` is an explicit `id`
parameter.  Store calls that Go can see fail (network errors and the like)
are modelled by explicit fault flags; a healthy store corresponds to all
flags `false`.  Each Go function returns the resulting store paired with
`Option String`: `some e` is the non-nil error the Go function returns. -/

/-- The configuration fields of `DelayQueue` that the modelled operations
read.  `name` is the queue name; durations are in seconds. -/
structure DelayQueue where
  name : String
  maxConsumeDuration : Int
  msgTTL : Int
  defaultRetryCount : Nat
  fetchLimit : Nat

/-- The option values accepted by the `opts ...interface\x7b\x7d` parameter:
`WithRetryCount(count int)` wraps an `int` as `retryCountOpt`; every other
value is ignored by the type switch. -/
inductive SendOpt where
  | retryCountOpt (n : Int)
  | unrecognized
deriving DecidableEq

/-- Go's `uint(o)` conversion of an `int` (two's-complement, 64-bit). -/
def goUint (n : Int) : Nat :=
  (n % (2 : Int) ^ 64).toNat

/-- The option-parsing loop of `SendScheduleMsg`: the last `retryCountOpt`
wins, starting from the configured default. -/
def parseRetryCount (dflt : Nat) (opts : List SendOpt) : Nat :=
  opts.foldl (fun acc o => match o with
    | .retryCountOpt n => goUint n
    | .unrecognized => acc) dflt

/-- Fault flags for the three writes of `SendScheduleMsg`. -/
structure SendFaults where
  fSet : Bool
  fHSet : Bool
  fZAdd : Bool
deriving DecidableEq

/-- No injected store failures. -/
def sendOk : SendFaults := ⟨false, false, false⟩

/-- `SendScheduleMsg` (delayqueue.go lines 109-139): three writes in order —
payload key with TTL `t - now + msgTTL`, retry-count hash entry, pending
sorted-set entry with score `t` — each aborting with its own error text. -/
def sendScheduleMsg (Q : DelayQueue) (payload : String) (t now : Int)
    (opts : List SendOpt) (id : String) (f : SendFaults) (st : Store) :
    Store × Option String :=
  let retryCount := parseRetryCount Q.defaultRetryCount opts
  if f.fSet then (st, some "store msg failed") else
  let st1 := setStr st (.msg Q.name id) payload ((t - now) + Q.msgTTL)
  if f.fHSet then (st1, some "store retry count failed") else
  match hset st1 (.retryCnt Q.name) id (retryCount : Int) with
  | .error e => (st1, some ("store retry count failed: " ++ e))
  | .ok st2 =>
    if f.fZAdd then (st2, some "push to pending failed") else
    match zadd st2 (.pending Q.name) t id with
    | .error e => (st2, some ("push to pending failed: " ++ e))
    | .ok st3 => (st3, none)

/-- `SendDelayMsg` (delayqueue.go lines 142-145): computes
`t := time.Now().Add(duration)` and calls `SendScheduleMsg`. -/
def sendDelayMsg (Q : DelayQueue) (payload : String) (duration now : Int)
    (opts : List SendOpt) (id : String) (f : SendFaults) (st : Store) :
    Store × Option String :=
  sendScheduleMsg Q payload (now + duration) now opts id f st

/-- `pending2Ready` (delayqueue.go lines 160-169): evaluates
`pending2ReadyScript` with `keys = [pendingKey, readyKey]`; a `redis.Nil`
result (script returned nil) is tolerated. -/
def pending2Ready (Q : DelayQueue) (now : Int) (st : Store) :
    Store × Option String :=
  match pending2ReadyScript [.pending Q.name, .ready Q.name] now st with
  | .ok _ st' => (st', none)
  | .fail e st' => (st', some ("pending2ReadyScript failed: " ++ e))

/-- Result of `ready2Unack` / `retry2Unack`: `nilP` is the `redis.Nil`
sentinel (empty source list), `gotP` carries the delivered id. -/
inductive PopOut where
  | nilP (st : Store)
  | gotP (id : String) (st : Store)
  | errP (e : String) (st : Store)
deriving DecidableEq

/-- Shared wrapper shape of `ready2Unack` and `retry2Unack`: run
`ready2UnackScript` on `[srcKey, unackKey]` with deadline
`now + maxConsumeDuration`. -/
def list2Unack (Q : DelayQueue) (src : RKey) (now : Int) (st : Store) : PopOut :=
  match ready2UnackScript [src, .unack Q.name] (now + Q.maxConsumeDuration) st with
  | .ok none st' => .nilP st'
  | .ok (some m) st' => .gotP m st'
  | .fail e st' => .errP ("ready2UnackScript failed " ++ e) st'

/-- `ready2Unack` (delayqueue.go lines 180-196). -/
def ready2Unack (Q : DelayQueue) (now : Int) (st : Store) : PopOut :=
  list2Unack Q (.ready Q.name) now st

/-- `retry2Unack` (delayqueue.go lines 198-214); the two extra `Eval`
arguments it passes beyond the script's use are ignored by the script. -/
def retry2Unack (Q : DelayQueue) (now : Int) (st : Store) : PopOut :=
  list2Unack Q (.retryL Q.name) now st

/-- `unack2Retry` (delayqueue.go lines 275-284): evaluates
`unack2RetryScript` on `[unAckKey, retryCountKey, retryKey, garbageKey]`;
`redis.Nil` is tolerated. -/
def unack2Retry (Q : DelayQueue) (now : Int) (st : Store) :
    Store × Option String :=
  match unack2RetryScript
      [.unack Q.name, .retryCnt Q.name, .retryL Q.name, .garbage Q.name] now st with
  | .ok _ st' => (st', none)
  | .fail e st' => (st', some ("unack to retry script failed:" ++ e))

/-- `garbageCollect` (delayqueue.go lines 287-310): read the garbage set,
delete the payload keys of its members, then remove the members. -/
def garbageCollect (Q : DelayQueue) (st : Store) : Store × Option String :=
  match smembers st (.garbage Q.name) with
  | .error e => (st, some ("smembers failed:" ++ e))
  | .ok msgIds =>
    if msgIds = [] then (st, none)
    else
      let st1 := delKeys st (msgIds.map (fun id => .msg Q.name id))
      match srem st1 (.garbage Q.name) msgIds with
      | .error e => (st1, some ("remove from garbage key failed:" ++ e))
      | .ok st2 => (st2, none)

/-- Result of the `callback` helper: `ackFlag` is the boolean it returns,
`invoked` records whether the user callback `q.cb` was actually run (a
ghost observation; the Go function runs `q.cb(payload)` exactly in the
branch where the payload key still exists). -/
inductive CbOut where
  | cok (ackFlag : Bool) (invoked : Bool)
  | cfail (e : String)
deriving DecidableEq

/-- `callback` (delayqueue.go lines 216-226): fetch the payload; on
`redis.Nil` return `(true, nil)` without running the user callback. -/
def callback (Q : DelayQueue) (cb : String → Bool) (id : String) (st : Store) : CbOut :=
  match getStr st (.msg Q.name id) with
  | .ok none => .cok true false
  | .ok (some payload) => .cok (cb payload) true
  | .error e => .cfail ("get message payload failed:" ++ e)

/-- Fault flags for the three store calls of `ack`. -/
structure AckFaults where
  fZRem : Bool
  fDel : Bool
  fHDel : Bool
deriving DecidableEq

/-- No injected store failures for `ack`. -/
def ackOkF : AckFaults := ⟨false, false, false⟩

/-- `ack` (delayqueue.go lines 228-238): only the `ZRem` error is returned;
the `Del` error is explicitly discarded (`_ = …Err()`) and the `HDel`
result is not even read — on their failure the corresponding write simply
does not happen. -/
def ack (Q : DelayQueue) (id : String) (f : AckFaults) (st : Store) :
    Store × Option String :=
  if f.fZRem then (st, some "remove from unack failed") else
  match zrem st (.unack Q.name) id with
  | .error e => (st, some ("remove from unack failed: " ++ e))
  | .ok st1 =>
    let st2 := if f.fDel then st1 else delV st1 (.msg Q.name id)
    let st3 := if f.fHDel then st2 else
      match hdel st2 (.retryCnt Q.name) id with
      | .ok s => s
      | .error _ => st2
    (st3, none)

/-- `nack` (delayqueue.go lines 240-251): re-score the id in `unack` to
`now` so that the next `unack2Retry` picks it up. -/
def nack (Q : DelayQueue) (id : String) (now : Int) (st : Store) :
    Store × Option String :=
  match zadd st (.unack Q.name) now id with
  | .error e => (st, some ("negative ack failed:" ++ e))
  | .ok st' => (st', none)

/-! ## Frame lemmas: a command leaves every other key untouched -/

theorem getV_putList_ne (st : Store) {k k' : RKey} (l : List String) (h : k' ≠ k) :
    getV (putList st k l) k' = getV st k' := by
  unfold putList; split
  · exact getV_delV_ne st h
  · exact getV_setV_ne st _ h

theorem getV_putZ_ne (st : Store) {k k' : RKey} (zs : List (String × Int)) (h : k' ≠ k) :
    getV (putZ st k zs) k' = getV st k' := by
  unfold putZ; split
  · exact getV_delV_ne st h
  · exact getV_setV_ne st _ h

theorem getV_putH_ne (st : Store) {k k' : RKey} (hs : List (String × Int)) (h : k' ≠ k) :
    getV (putH st k hs) k' = getV st k' := by
  unfold putH; split
  · exact getV_delV_ne st h
  · exact getV_setV_ne st _ h

theorem getV_putS_ne (st : Store) {k k' : RKey} (s : List String) (h : k' ≠ k) :
    getV (putS st k s) k' = getV st k' := by
  unfold putS; split
  · exact getV_delV_ne st h
  · exact getV_setV_ne st _ h

theorem zadd_frame {st st' : Store} {k k' : RKey} {s : Int} {m : String}
    (hok : zadd st k s m = .ok st') (h : k' ≠ k) : getV st' k' = getV st k' := by
  unfold zadd at hok
  split at hok
  · cases hok; exact getV_setV_ne st _ h
  · cases hok; exact getV_setV_ne st _ h
  · simp at hok

theorem zrem_frame {st st' : Store} {k k' : RKey} {m : String}
    (hok : zrem st k m = .ok st') (h : k' ≠ k) : getV st' k' = getV st k' := by
  unfold zrem at hok
  split at hok
  · cases hok; rfl
  · cases hok; exact getV_putZ_ne st _ h
  · simp at hok

theorem zremrangebyscore_frame {st st' : Store} {k k' : RKey} {lo hi : Int}
    (hok : zremrangebyscore st k lo hi = .ok st') (h : k' ≠ k) :
    getV st' k' = getV st k' := by
  unfold zremrangebyscore at hok
  split at hok
  · cases hok; rfl
  · cases hok; exact getV_putZ_ne st _ h
  · simp at hok

theorem lpush_frame {st st' : Store} {k k' : RKey} {vals : List String}
    (hok : lpush st k vals = .ok st') (h : k' ≠ k) : getV st' k' = getV st k' := by
  unfold lpush at hok
  split at hok
  · cases hok; exact getV_putList_ne st _ h
  · cases hok; exact getV_putList_ne st _ h
  · simp at hok

theorem rpop_frame {st st' : Store} {k k' : RKey} {r : Option String}
    (hok : rpop st k = .ok (r, st')) (h : k' ≠ k) : getV st' k' = getV st k' := by
  unfold rpop at hok
  split at hok
  · cases hok; rfl
  · split at hok
    · cases hok; rfl
    · cases hok; exact getV_putList_ne st _ h
  · simp at hok

theorem hset_frame {st st' : Store} {k k' : RKey} {f : String} {v : Int}
    (hok : hset st k f v = .ok st') (h : k' ≠ k) : getV st' k' = getV st k' := by
  unfold hset at hok
  split at hok
  · cases hok; exact getV_setV_ne st _ h
  · cases hok; exact getV_setV_ne st _ h
  · simp at hok

theorem hincrby_frame {st st' : Store} {k k' : RKey} {f : String} {d r : Int}
    (hok : hincrby st k f d = .ok (r, st')) (h : k' ≠ k) : getV st' k' = getV st k' := by
  unfold hincrby at hok
  split at hok
  · cases hok; exact getV_setV_ne st _ h
  · cases hok; exact getV_setV_ne st _ h
  · simp at hok

theorem hdel_frame {st st' : Store} {k k' : RKey} {f : String}
    (hok : hdel st k f = .ok st') (h : k' ≠ k) : getV st' k' = getV st k' := by
  unfold hdel at hok
  split at hok
  · cases hok; rfl
  · cases hok; exact getV_putH_ne st _ h
  · simp at hok

theorem sadd_frame {st st' : Store} {k k' : RKey} {m : String}
    (hok : sadd st k m = .ok st') (h : k' ≠ k) : getV st' k' = getV st k' := by
  unfold sadd at hok
  split at hok
  · cases hok; exact getV_setV_ne st _ h
  · cases hok; exact getV_setV_ne st _ h
  · simp at hok

theorem srem_frame {st st' : Store} {k k' : RKey} {ms : List String}
    (hok : srem st k ms = .ok st') (h : k' ≠ k) : getV st' k' = getV st k' := by
  unfold srem at hok
  split at hok
  · cases hok; rfl
  · cases hok; exact getV_putS_ne st _ h
  · simp at hok

theorem delKeys_frame {ks : List RKey} {k' : RKey} (h : ∀ k ∈ ks, k' ≠ k) :
    ∀ st : Store, getV (delKeys st ks) k' = getV st k' := by
  induction ks with
  | nil => intro st; rfl
  | cons k rest ih =>
    intro st
    have := ih (fun a ha => h a (List.mem_cons_of_mem _ ha))
    simp only [delKeys, List.foldl_cons] at *
    rw [this, getV_delV_ne st (h k (List.mem_cons_self _ _))]

/-- `ack` touches only the unack key, the payload key of `id`, and the
retry-count key. -/
theorem ack_frame {Q : DelayQueue} {id : String} {f : AckFaults} {k' : RKey}
    (h1 : k' ≠ RKey.unack Q.name) (h2 : k' ≠ RKey.msg Q.name id)
    (h3 : k' ≠ RKey.retryCnt Q.name) (st : Store) :
    getV (ack Q id f st).1 k' = getV st k' := by
  unfold ack
  split
  · rfl
  · split
    · rfl
    · next st1 heq =>
      have e1 : getV st1 k' = getV st k' := zrem_frame heq h1
      set st2 := if f.fDel then st1 else delV st1 (.msg Q.name id) with hst2
      have e2 : getV st2 k' = getV st1 k' := by
        rw [hst2]; split
        · rfl
        · exact getV_delV_ne st1 h2
      simp only
      split
      · exact e2.trans e1
      · split
        · next s hs => exact (hdel_frame hs h3).trans (e2.trans e1)
        · exact e2.trans e1

/-- `nack` touches only the unack key. -/
theorem nack_frame {Q : DelayQueue} {id : String} {now : Int} {k' : RKey}
    (h1 : k' ≠ RKey.unack Q.name) (st : Store) :
    getV (nack Q id now st).1 k' = getV st k' := by
  unfold nack
  split
  · rfl
  · next st' heq => exact zadd_frame heq h1

/-! ## The consume cycle -/

/-- Length of the list stored at `k` (0 when absent or of another type);
the termination measure of the drain loops. -/
def listLen (st : Store) (k : RKey) : Nat :=
  match getV st k with
  | some (.list l) => l.length
  | _ => 0

theorem listLen_congr {st1 st2 : Store} {k : RKey} (h : getV st1 k = getV st2 k) :
    listLen st1 k = listLen st2 k := by
  unfold listLen; rw [h]

/-- The source key of a drain loop: the retry list for the retry loop,
the ready list for the ready loop. -/
def srcKey (Q : DelayQueue) (isRetry : Bool) : RKey :=
  if isRetry then .retryL Q.name else .ready Q.name

theorem srcKey_ne_unack (Q : DelayQueue) (b : Bool) : srcKey Q b ≠ RKey.unack Q.name := by
  cases b <;> simp [srcKey]

theorem srcKey_ne_msg (Q : DelayQueue) (b : Bool) (id : String) :
    srcKey Q b ≠ RKey.msg Q.name id := by
  cases b <;> simp [srcKey]

theorem srcKey_ne_retryCnt (Q : DelayQueue) (b : Bool) :
    srcKey Q b ≠ RKey.retryCnt Q.name := by
  cases b <;> simp [srcKey]

/-- A successful pop strictly shrinks the source list. -/
theorem list2Unack_got_len {Q : DelayQueue} {src : RKey} {now : Int}
    {st st' : Store} {id : String} (hsrc : src ≠ RKey.unack Q.name)
    (h : list2Unack Q src now st = .gotP id st') :
    listLen st' src < listLen st src := by
  unfold list2Unack ready2UnackScript keyAt at h
  simp only [List.get?] at h
  unfold rpop at h
  cases hv : getV st src with
  | none => simp [hv] at h
  | some v =>
    cases v with
    | zset zs => simp [hv] at h
    | hash hs => simp [hv] at h
    | set s => simp [hv] at h
    | str p t => simp [hv] at h
    | list l =>
      cases hl : l.getLast? with
      | none => simp [hv, hl] at h
      | some x =>
        simp only [hv, hl] at h
        cases hz : zadd (putList st src l.dropLast) (RKey.unack Q.name)
            (now + Q.maxConsumeDuration) x with
        | error e => simp [hz] at h
        | ok st2 =>
          simp only [hz] at h
          cases h with
          | refl =>
            have hne : l ≠ [] := by
              intro hnil; rw [hnil] at hl; simp at hl
            have hfr : getV st' src = getV (putList st src l.dropLast) src :=
              zadd_frame hz hsrc
            have hlen : listLen (putList st src l.dropLast) src = l.dropLast.length := by
              by_cases hd : l.dropLast = []
              · simp [putList, hd, listLen, getV_delV_self]
              · simp [putList, hd, listLen, getV_setV_self]
            have h1 : listLen st' src = l.dropLast.length :=
              (listLen_congr hfr).trans hlen
            have h2 : listLen st src = l.length := by
              unfold listLen; rw [hv]
            have h3 : 0 < l.length := List.length_pos.mpr hne
            have h4 : l.dropLast.length = l.length - 1 := by simp
            omega

/-- The drain-loop body shared by the two `for true` loops of `consume`
(delayqueue.go lines 320-345 and 356-381): pop one id via
`ready2Unack`/`retry2Unack`, run `callback`, then `ack` or `nack`; break on
`redis.Nil`, return on any error, and break once `fetchCount >= fetchLimit`
(checked *after* the id has been processed, matching the Go code).  `acc`
is a ghost transcript of the processed ids paired with whether the user
callback was invoked for each; the Go code keeps only the counter
`fetchCount`, which equals `cnt + (length of the ids processed so far)`.
The consumer path uses a healthy store (`ackOkF`); store-level `WRONGTYPE`
errors are still propagated. -/
def consumeLoop (Q : DelayQueue) (cb : String → Bool) (isRetry : Bool) (now : Int)
    (cnt : Nat) (acc : List (String × Bool)) (st : Store) :
    Store × List (String × Bool) × Option String :=
  match hpop : list2Unack Q (srcKey Q isRetry) now st with
  | .errP e st' => (st', acc, some e)
  | .nilP st' => (st', acc, none)
  | .gotP id st' =>
    match callback Q cb id st' with
    | .cfail e => (st', acc, some e)
    | .cok ackFlag invoked =>
      match hstep : (if ackFlag then ack Q id ackOkF st' else nack Q id now st') with
      | (st2, some e) => (st2, acc ++ [(id, invoked)], some e)
      | (st2, none) =>
        if cnt + 1 ≥ Q.fetchLimit then (st2, acc ++ [(id, invoked)], none)
        else consumeLoop Q cb isRetry now (cnt + 1) (acc ++ [(id, invoked)]) st2
termination_by listLen st (srcKey Q isRetry)
decreasing_by
  have hlt : listLen st' (srcKey Q isRetry) < listLen st (srcKey Q isRetry) :=
    list2Unack_got_len (srcKey_ne_unack Q isRetry) hpop
  have hst2 : getV st2 (srcKey Q isRetry) = getV st' (srcKey Q isRetry) := by
    cases ackFlag
    · have hstep' : nack Q id now st' = (st2, none) := by simpa using hstep
      have hfst : st2 = (nack Q id now st').1 := by rw [hstep']
      rw [hfst]; exact nack_frame (srcKey_ne_unack Q isRetry) st'
    · have hstep' : ack Q id ackOkF st' = (st2, none) := by simpa using hstep
      have hfst : st2 = (ack Q id ackOkF st').1 := by rw [hstep']
      rw [hfst]
      exact ack_frame (srcKey_ne_unack Q isRetry) (srcKey_ne_msg Q isRetry id)
        (srcKey_ne_retryCnt Q isRetry) st'
  exact (listLen_congr hst2).trans_lt hlt

/-! ## Value-level lemmas about hashes, sorted sets and the put-helpers -/

theorem getV_putList_self (st : Store) (k : RKey) (l : List String) :
    getV (putList st k l) k = if l = [] then none else some (.list l) := by
  unfold putList; split <;> simp [*]

theorem getV_putZ_self (st : Store) (k : RKey) (zs : List (String × Int)) :
    getV (putZ st k zs) k = if zs = [] then none else some (.zset zs) := by
  unfold putZ; split <;> simp [*]

theorem getV_putH_self (st : Store) (k : RKey) (h : List (String × Int)) :
    getV (putH st k h) k = if h = [] then none else some (.hash h) := by
  unfold putH; split <;> simp [*]

theorem getV_putS_self (st : Store) (k : RKey) (s : List String) :
    getV (putS st k s) k = if s = [] then none else some (.set s) := by
  unfold putS; split <;> simp [*]

theorem find?_filter_ne (h : List (String × Int)) {f f' : String} (hne : f' ≠ f) :
    (h.filter (fun p => !(p.1 == f))).find? (fun p => p.1 == f') =
      h.find? (fun p => p.1 == f') := by
  induction h with
  | nil => rfl
  | cons x xs ih =>
    by_cases hx : x.1 = f
    · have hx1 : (!(x.1 == f)) = false := by simp [hx]
      have hx2 : (x.1 == f') = false := by
        simp only [beq_eq_false_iff_ne, ne_eq, hx]
        exact fun hc => hne hc.symm
      simp [List.filter_cons, hx1, List.find?_cons, hx2, ih]
    · have hx1 : (!(x.1 == f)) = true := by simp [hx]
      cases hxy : (x.1 == f') with
      | true => simp [List.filter_cons, hx1, List.find?_cons, hxy]
      | false => simp [List.filter_cons, hx1, List.find?_cons, hxy, ih]

theorem hfield_hfieldSet_self (h : List (String × Int)) (f : String) (v : Int) :
    hfield (hfieldSet h f v) f = some v := by
  have h1 : (h.filter (fun p => !(p.1 == f))).find? (fun p => p.1 == f) = none := by
    apply List.find?_eq_none.mpr
    intro p hp
    have := List.of_mem_filter hp
    simpa using this
  simp [hfield, hfieldSet, List.find?_append, h1, List.find?]

theorem hfield_hfieldSet_ne (h : List (String × Int)) {f f' : String} (hne : f' ≠ f)
    (v : Int) : hfield (hfieldSet h f v) f' = hfield h f' := by
  unfold hfield hfieldSet
  rw [List.find?_append, find?_filter_ne h hne]
  cases hf : h.find? (fun p => p.1 == f') with
  | some p => simp
  | none =>
    have hff : (f == f') = false := by
      simp only [beq_eq_false_iff_ne, ne_eq]
      exact fun hc => hne hc.symm
    simp [List.find?, hff]

theorem hfield_filter_self (h : List (String × Int)) (f : String) :
    hfield (h.filter (fun p => !(p.1 == f))) f = none := by
  unfold hfield
  have h1 : (h.filter (fun p => !(p.1 == f))).find? (fun p => p.1 == f) = none := by
    apply List.find?_eq_none.mpr
    intro p hp
    have := List.of_mem_filter hp
    simpa using this
  simp [h1]

theorem hfield_filter_ne (h : List (String × Int)) {f f' : String} (hne : f' ≠ f) :
    hfield (h.filter (fun p => !(p.1 == f))) f' = hfield h f' := by
  unfold hfield
  rw [find?_filter_ne h hne]

theorem find?_zinsert_self {m : String} {s : Int} (l : List (String × Int))
    (hl : ∀ p ∈ l, p.1 ≠ m) :
    ((zinsert (m, s) l).find? (fun p => p.1 == m)).map (·.2) = some s := by
  induction l with
  | nil => simp [zinsert, List.find?]
  | cons x xs ih =>
    unfold zinsert
    by_cases hz : zless (m, s) x
    · simp [hz, List.find?]
    · have hx : ¬ (x.1 = m) := hl x (by simp)
      simp [hz, List.find?, hx, ih (fun p hp => hl p (by simp [hp]))]

theorem zscore_zaddList (zs : List (String × Int)) (s : Int) (m : String) :
    ((zaddList zs s m).find? (fun p => p.1 == m)).map (·.2) = some s := by
  apply find?_zinsert_self
  intro p hp
  have := List.of_mem_filter hp
  simpa using this

/-! ## Success specifications of the commands on well-shaped keys -/

theorem hset_ok_of_shape {st : Store} {k : RKey} (hC : noneOrHash (getV st k) = true)
    (f : String) (v : Int) :
    ∃ st', hset st k f v = .ok st' ∧ hget st' k f = some v ∧
      (∀ f', f' ≠ f → hget st' k f' = hget st k f') ∧
      (∀ k', k' ≠ k → getV st' k' = getV st k') ∧
      noneOrHash (getV st' k) = true := by
  cases hv : getV st k with
  | none =>
    refine ⟨setV st k (.hash [(f, v)]), by simp [hset, hv], ?_, ?_, ?_, ?_⟩
    · simp [hget, getV_setV_self, hfield, List.find?]
    · intro f' hf'
      have hff : (f == f') = false := by
        simp only [beq_eq_false_iff_ne, ne_eq]
        exact fun hc => hf' hc.symm
      simp [hget, getV_setV_self, hfield, List.find?, hff, hv]
    · intro k' hk'; exact getV_setV_ne st _ hk'
    · simp [noneOrHash, getV_setV_self]
  | some v0 =>
    cases v0 with
    | hash h =>
      refine ⟨setV st k (.hash (hfieldSet h f v)), by simp [hset, hv], ?_, ?_, ?_, ?_⟩
      · simp [hget, getV_setV_self, hfield_hfieldSet_self]
      · intro f' hf'
        simp [hget, getV_setV_self, hfield_hfieldSet_ne h hf', hv]
      · intro k' hk'; exact getV_setV_ne st _ hk'
      · simp [noneOrHash, getV_setV_self]
    | zset zs => simp [noneOrHash, hv] at hC
    | list l => simp [noneOrHash, hv] at hC
    | set s => simp [noneOrHash, hv] at hC
    | str p t => simp [noneOrHash, hv] at hC

theorem hdel_ok_of_shape {st : Store} {k : RKey} (hC : noneOrHash (getV st k) = true)
    (f : String) :
    ∃ st', hdel st k f = .ok st' ∧ hget st' k f = none ∧
      (∀ f', f' ≠ f → hget st' k f' = hget st k f') ∧
      (∀ k', k' ≠ k → getV st' k' = getV st k') ∧
      noneOrHash (getV st' k) = true := by
  cases hv : getV st k with
  | none =>
    exact ⟨st, by simp [hdel, hv], by simp [hget, hv], fun f' _ => rfl, fun k' _ => rfl,
      by simp [noneOrHash, hv]⟩
  | some v0 =>
    cases v0 with
    | hash h =>
      by_cases hemp : h.filter (fun p => !(p.1 == f)) = []
      · refine ⟨putH st k (h.filter (fun p => !(p.1 == f))), by simp [hdel, hv], ?_, ?_, ?_, ?_⟩
        · simp [hget, getV_putH_self, hemp]
        · intro f' hf'
          have h2 := hfield_filter_ne h hf'
          rw [hemp] at h2
          have h3 : hfield h f' = none := by
            rw [← h2]; simp [hfield, List.find?]
          simp [hget, getV_putH_self, hemp, hv, h3]
        · intro k' hk'; exact getV_putH_ne st _ hk'
        · simp [noneOrHash, getV_putH_self, hemp]
      · refine ⟨putH st k (h.filter (fun p => !(p.1 == f))), by simp [hdel, hv], ?_, ?_, ?_, ?_⟩
        · simp [hget, getV_putH_self, hemp, hfield_filter_self]
        · intro f' hf'
          simp [hget, getV_putH_self, hemp, hv, hfield_filter_ne h hf']
        · intro k' hk'; exact getV_putH_ne st _ hk'
        · simp [noneOrHash, getV_putH_self, hemp]
    | zset zs => simp [noneOrHash, hv] at hC
    | list l => simp [noneOrHash, hv] at hC
    | set s => simp [noneOrHash, hv] at hC
    | str p t => simp [noneOrHash, hv] at hC

theorem hincrby_ok_of_field {st : Store} {k : RKey} {f : String} {c : Int}
    (hf : hget st k f = some c) (d : Int) :
    ∃ st', hincrby st k f d = .ok (c + d, st') ∧ hget st' k f = some (c + d) ∧
      (∀ f', f' ≠ f → hget st' k f' = hget st k f') ∧
      (∀ k', k' ≠ k → getV st' k' = getV st k') ∧
      noneOrHash (getV st' k) = true := by
  cases hv : getV st k with
  | none => simp [hget, hv] at hf
  | some v0 =>
    cases v0 with
    | hash h =>
      have hfld : hfield h f = some c := by simpa [hget, hv] using hf
      refine ⟨setV st k (.hash (hfieldSet h f (c + d))),
        by simp [hincrby, hv, hfld], ?_, ?_, ?_, ?_⟩
      · simp [hget, getV_setV_self, hfield_hfieldSet_self]
      · intro f' hf'
        simp [hget, getV_setV_self, hfield_hfieldSet_ne h hf', hv]
      · intro k' hk'; exact getV_setV_ne st _ hk'
      · simp [noneOrHash, getV_setV_self]
    | zset zs => simp [hget, hv] at hf
    | list l => simp [hget, hv] at hf
    | set s => simp [hget, hv] at hf
    | str p t => simp [hget, hv] at hf

theorem zadd_ok_of_shape {st : Store} {k : RKey} (hC : noneOrZset (getV st k) = true)
    (s : Int) (m : String) :
    ∃ st', zadd st k s m = .ok st' ∧ zscore st' k m = some s ∧ zmem st' k m = true ∧
      (∀ k', k' ≠ k → getV st' k' = getV st k') ∧
      noneOrZset (getV st' k) = true := by
  have hzmem : ∀ zs : List (String × Int), List.any (zaddList zs s m) (fun p => p.1 == m) = true := by
    intro zs
    have := zscore_zaddList zs s m
    cases hfind : (zaddList zs s m).find? (fun p => p.1 == m) with
    | none => rw [hfind] at this; simp at this
    | some p =>
      have hp := List.find?_some hfind
      exact List.any_eq_true.mpr ⟨p, List.mem_of_find?_eq_some hfind, hp⟩
  cases hv : getV st k with
  | none =>
    refine ⟨setV st k (.zset (zaddList [] s m)), by simp [zadd, hv], ?_, ?_, ?_, ?_⟩
    · simp [zscore, getV_setV_self, zscore_zaddList]
    · simp [zmem, getV_setV_self, hzmem]
    · intro k' hk'; exact getV_setV_ne st _ hk'
    · simp [noneOrZset, getV_setV_self]
  | some v0 =>
    cases v0 with
    | zset zs =>
      refine ⟨setV st k (.zset (zaddList zs s m)), by simp [zadd, hv], ?_, ?_, ?_, ?_⟩
      · simp [zscore, getV_setV_self, zscore_zaddList]
      · simp [zmem, getV_setV_self, hzmem]
      · intro k' hk'; exact getV_setV_ne st _ hk'
      · simp [noneOrZset, getV_setV_self]
    | hash h => simp [noneOrZset, hv] at hC
    | list l => simp [noneOrZset, hv] at hC
    | set s0 => simp [noneOrZset, hv] at hC
    | str p t => simp [noneOrZset, hv] at hC

theorem zrem_ok_of_shape {st : Store} {k : RKey} (hC : noneOrZset (getV st k) = true)
    (m : String) :
    ∃ st', zrem st k m = .ok st' ∧ zmem st' k m = false ∧
      (∀ k', k' ≠ k → getV st' k' = getV st k') ∧
      noneOrZset (getV st' k) = true := by
  cases hv : getV st k with
  | none =>
    exact ⟨st, by simp [zrem, hv], by simp [zmem, hv], fun k' _ => rfl,
      by simp [noneOrZset, hv]⟩
  | some v0 =>
    cases v0 with
    | zset zs =>
      by_cases hemp : zs.filter (fun p => !(p.1 == m)) = []
      · refine ⟨putZ st k (zs.filter (fun p => !(p.1 == m))), by simp [zrem, hv], ?_, ?_, ?_⟩
        · simp [zmem, getV_putZ_self, hemp]
        · intro k' hk'; exact getV_putZ_ne st _ hk'
        · simp [noneOrZset, getV_putZ_self, hemp]
      · refine ⟨putZ st k (zs.filter (fun p => !(p.1 == m))), by simp [zrem, hv], ?_, ?_, ?_⟩
        · simp only [zmem, getV_putZ_self, hemp, if_false]
          apply List.any_eq_false.mpr
          intro p hp
          have := List.of_mem_filter hp
          simpa using this
        · intro k' hk'; exact getV_putZ_ne st _ hk'
        · simp [noneOrZset, getV_putZ_self, hemp]
    | hash h => simp [noneOrZset, hv] at hC
    | list l => simp [noneOrZset, hv] at hC
    | set s0 => simp [noneOrZset, hv] at hC
    | str p t => simp [noneOrZset, hv] at hC

theorem lpush_one_ok {st : Store} {k : RKey} (hC : noneOrList (getV st k) = true)
    (x : String) :
    ∃ st', lpush st k [x] = .ok st' ∧ lmem st' k x = true ∧
      (∀ y, lmem st k y = true → lmem st' k y = true) ∧
      (∀ k', k' ≠ k → getV st' k' = getV st k') ∧
      noneOrList (getV st' k) = true := by
  cases hv : getV st k with
  | none =>
    refine ⟨putList st k [x], by simp [lpush, hv], ?_, ?_, ?_, ?_⟩
    · simp [lmem, putList, getV_setV_self]
    · intro y hy; simp [lmem, hv] at hy
    · intro k' hk'; exact getV_putList_ne st _ hk'
    · simp [putList, noneOrList, getV_setV_self]
  | some v0 =>
    cases v0 with
    | list l =>
      refine ⟨putList st k (x :: l), by simp [lpush, hv], ?_, ?_, ?_, ?_⟩
      · simp [lmem, putList, getV_setV_self]
      · intro y hy
        simp [lmem, hv] at hy
        simp [lmem, putList, getV_setV_self, hy]
      · intro k' hk'; exact getV_putList_ne st _ hk'
      · simp [putList, noneOrList, getV_setV_self]
    | zset zs => simp [noneOrList, hv] at hC
    | hash h => simp [noneOrList, hv] at hC
    | set s0 => simp [noneOrList, hv] at hC
    | str p t => simp [noneOrList, hv] at hC

theorem sadd_ok_of_shape {st : Store} {k : RKey} (hC : noneOrSet (getV st k) = true)
    (m : String) :
    ∃ st', sadd st k m = .ok st' ∧ smem st' k m = true ∧
      (∀ y, smem st k y = true → smem st' k y = true) ∧
      (∀ y, smem st' k y = true → smem st k y = true ∨ y = m) ∧
      (∀ k', k' ≠ k → getV st' k' = getV st k') ∧
      noneOrSet (getV st' k) = true := by
  cases hv : getV st k with
  | none =>
    refine ⟨setV st k (.set [m]), by simp [sadd, hv], ?_, ?_, ?_, ?_, ?_⟩
    · simp [smem, getV_setV_self]
    · intro y hy; simp [smem, hv] at hy
    · intro y hy
      simp [smem, getV_setV_self] at hy
      exact Or.inr hy
    · intro k' hk'; exact getV_setV_ne st _ hk'
    · simp [noneOrSet, getV_setV_self]
  | some v0 =>
    cases v0 with
    | set s0 =>
      refine ⟨setV st k (.set (if s0.contains m then s0 else m :: s0)),
        by simp [sadd, hv], ?_, ?_, ?_, ?_, ?_⟩
      · by_cases hm : s0.contains m = true
        · have hm' : m ∈ s0 := by simpa using hm
          simp [smem, getV_setV_self, hm, hm']
        · have hm' : ¬ m ∈ s0 := by simpa using hm
          simp [smem, getV_setV_self, hm, hm']
      · intro y hy
        simp [smem, hv] at hy
        by_cases hm : s0.contains m = true
        · have hm' : m ∈ s0 := by simpa using hm
          simp [smem, getV_setV_self, hm, hm', hy]
        · have hm' : ¬ m ∈ s0 := by simpa using hm
          simp [smem, getV_setV_self, hm, hm', hy]
      · intro y hy
        by_cases hm : s0.contains m = true
        · have hm' : m ∈ s0 := by simpa using hm
          simp [smem, getV_setV_self, hm, hm'] at hy
          exact Or.inl (by simp [smem, hv, hy])
        · have hm' : ¬ m ∈ s0 := by simpa using hm
          simp [smem, getV_setV_self, hm, hm'] at hy
          rcases hy with h | h
          · exact Or.inr h
          · exact Or.inl (by simp [smem, hv, h])
      · intro k' hk'; exact getV_setV_ne st _ hk'
      · simp [noneOrSet, getV_setV_self]
    | zset zs => simp [noneOrSet, hv] at hC
    | hash h => simp [noneOrSet, hv] at hC
    | list l => simp [noneOrSet, hv] at hC
    | str p t => simp [noneOrSet, hv] at hC

/-- `consume` (delayqueue.go lines 313-383): one tick of the consumer —
`pending2Ready`, the ready drain loop, `unack2Retry`, `garbageCollect`,
then the retry drain loop with a fresh `fetchCount`.  Any error aborts the
cycle.  The two ghost transcripts list the ids processed by each loop. -/
def consume (Q : DelayQueue) (cb : String → Bool) (now : Int) (st : Store) :
    Store × List (String × Bool) × List (String × Bool) × Option String :=
  match pending2Ready Q now st with
  | (st1, some e) => (st1, [], [], some e)
  | (st1, none) =>
    match consumeLoop Q cb false now 0 [] st1 with
    | (st2, rdy, some e) => (st2, rdy, [], some e)
    | (st2, rdy, none) =>
      match unack2Retry Q now st2 with
      | (st3, some e) => (st3, rdy, [], some e)
      | (st3, none) =>
        match garbageCollect Q st3 with
        | (st4, some e) => (st4, rdy, [], some e)
        | (st4, none) =>
          match consumeLoop Q cb true now 0 [] st4 with
          | (st5, rty, e) => (st5, rdy, rty, e)

/-! ## Observation congruence helpers -/

theorem hget_congr {st1 st2 : Store} {k : RKey} (h : getV st1 k = getV st2 k)
    (f : String) : hget st1 k f = hget st2 k f := by
  unfold hget; rw [h]

theorem zscore_congr {st1 st2 : Store} {k : RKey} (h : getV st1 k = getV st2 k)
    (m : String) : zscore st1 k m = zscore st2 k m := by
  unfold zscore; rw [h]

theorem zmem_congr {st1 st2 : Store} {k : RKey} (h : getV st1 k = getV st2 k)
    (m : String) : zmem st1 k m = zmem st2 k m := by
  unfold zmem; rw [h]

theorem smem_congr {st1 st2 : Store} {k : RKey} (h : getV st1 k = getV st2 k)
    (m : String) : smem st1 k m = smem st2 k m := by
  unfold smem; rw [h]

theorem lmem_congr {st1 st2 : Store} {k : RKey} (h : getV st1 k = getV st2 k)
    (m : String) : lmem st1 k m = lmem st2 k m := by
  unfold lmem; rw [h]

/-- Specification of a fault-free `sendScheduleMsg` run: no error, and the
three observable writes.  Shared by several claim theorems. -/
theorem sendOk_writes (Q : DelayQueue) (payload : String) (t now : Int)
    (opts : List SendOpt) (id : String) (st : Store)
    (hC : noneOrHash (getV st (RKey.retryCnt Q.name)) = true)
    (hP : noneOrZset (getV st (RKey.pending Q.name)) = true) :
    (sendScheduleMsg Q payload t now opts id sendOk st).2 = none ∧
    getV (sendScheduleMsg Q payload t now opts id sendOk st).1 (RKey.msg Q.name id) =
      some (RVal.str payload ((t - now) + Q.msgTTL)) ∧
    hget (sendScheduleMsg Q payload t now opts id sendOk st).1 (RKey.retryCnt Q.name) id =
      some ((parseRetryCount Q.defaultRetryCount opts : Nat) : Int) ∧
    zscore (sendScheduleMsg Q payload t now opts id sendOk st).1 (RKey.pending Q.name) id =
      some t := by
  have hmr : RKey.retryCnt Q.name ≠ RKey.msg Q.name id := by simp
  have hpm : RKey.pending Q.name ≠ RKey.msg Q.name id := by simp
  have hpr : RKey.pending Q.name ≠ RKey.retryCnt Q.name := by simp
  have hmp : RKey.msg Q.name id ≠ RKey.pending Q.name := by simp
  have hrp : RKey.retryCnt Q.name ≠ RKey.pending Q.name := by simp
  have hmr' : RKey.msg Q.name id ≠ RKey.retryCnt Q.name := by simp
  set st1 := setStr st (RKey.msg Q.name id) payload ((t - now) + Q.msgTTL) with hst1
  have hC1 : noneOrHash (getV st1 (RKey.retryCnt Q.name)) = true := by
    rw [hst1]; unfold setStr; rw [getV_setV_ne st _ hmr]; exact hC
  obtain ⟨st2, hok2, hg2, _, hkfr2, _⟩ :=
    hset_ok_of_shape hC1 id ((parseRetryCount Q.defaultRetryCount opts : Nat) : Int)
  have hP2 : noneOrZset (getV st2 (RKey.pending Q.name)) = true := by
    rw [hkfr2 _ hpr, hst1]; unfold setStr; rw [getV_setV_ne st _ hpm]; exact hP
  obtain ⟨st3, hok3, hz3, _, hkfr3, _⟩ := zadd_ok_of_shape hP2 t id
  have hrun : sendScheduleMsg Q payload t now opts id sendOk st = (st3, none) := by
    unfold sendScheduleMsg
    simp only [sendOk, Bool.false_eq_true, if_false, ← hst1, hok2, hok3]
  rw [hrun]
  refine ⟨rfl, ?_, ?_, ?_⟩
  · rw [hkfr3 _ hmp, hkfr2 _ hmr', hst1]
    unfold setStr
    exact getV_setV_self st _ _
  · rw [hget_congr (hkfr3 _ hrp) id]
    exact hg2
  · exact hz3

/-- Queue configuration used for the concrete witnesses and
counterexamples: name "q" and the documented defaults
(`maxConsumeDuration` 5 s, `msgTTL` 3600 s, `defaultRetryCount` 3,
`fetchLimit` 2^31 − 1). -/
def sampleQ : DelayQueue := ⟨"q", 5, 3600, 3, 2147483647⟩

/-- Store used for the C1 failing input: message "a" is pending with
delivery time 5, and the ready key does not exist (which is the only
code-reachable situation, since nothing in this code base ever creates the
ready key). -/
def c1Store : Store := [(.pending "q", .zset [("a", 5)])]

/-- C1: the claim states that `pending2Ready` at `now = 10` moves member
"a" (score 5 ≤ 10) from `pending` to `ready` and removes it from
`pending`.  The code does neither: because `pending2Ready` passes only two
keys while the script range-reads `KEYS[2]` (the ready key) and pushes to
`KEYS[3]` (unset), the script sees an empty eligible set, returns nil, and
leaves the store untouched — `pending2Ready` reports success, "a" stays in
`pending` forever and `ready` remains absent. -/
theorem c1_pending2Ready_moves_nothing :
    pending2Ready sampleQ 10 c1Store = (c1Store, none) ∧
    zscore c1Store (RKey.pending "q") "a" = some 5 ∧
    getV c1Store (RKey.ready "q") = none := by
  exact ⟨rfl, rfl, rfl⟩

/-- C8: `SendDelayMsg(payload, duration, opts)` behaves exactly as
`SendScheduleMsg(payload, now + duration, opts)` — the Go function is
literally `t := time.Now().Add(duration); return q.SendScheduleMsg(...)`.
In this model the single clock reading `now` is an explicit parameter, so
the equality is one of functions on the whole state: same writes, same
result, for every payload, duration, option list, fault pattern and
store. -/
theorem c8_sendDelayMsg_refines (Q : DelayQueue) (payload : String)
    (duration now : Int) (opts : List SendOpt) (id : String) (f : SendFaults)
    (st : Store) :
    sendDelayMsg Q payload duration now opts id f st =
      sendScheduleMsg Q payload (now + duration) now opts id f st := rfl

/-- C5: `SendScheduleMsg` performs exactly three store writes in order —
payload key with TTL `(deliverAt − now) + msgTTL`, then the retry-count
hash entry, then the pending sorted-set entry with score `deliverAt`.  The
first failing write aborts with its step's distinct error text
("store msg failed" / "store retry count failed" / "push to pending
failed"), and none of the later writes happen (on an fHSet failure the
store is exactly the payload-written store; on an fZAdd failure the
pending key is untouched).  The fault-free run performs all three. -/
theorem c5_sendScheduleMsg_order (Q : DelayQueue) (payload : String) (t now : Int)
    (opts : List SendOpt) (id : String) (st : Store)
    (hC : noneOrHash (getV st (RKey.retryCnt Q.name)) = true)
    (hP : noneOrZset (getV st (RKey.pending Q.name)) = true) :
    (∀ f : SendFaults, f.fSet = true →
      sendScheduleMsg Q payload t now opts id f st = (st, some "store msg failed")) ∧
    (∀ f : SendFaults, f.fSet = false → f.fHSet = true →
      sendScheduleMsg Q payload t now opts id f st =
        (setStr st (RKey.msg Q.name id) payload ((t - now) + Q.msgTTL),
          some "store retry count failed")) ∧
    (∀ f : SendFaults, f.fSet = false → f.fHSet = false → f.fZAdd = true →
      (sendScheduleMsg Q payload t now opts id f st).2 = some "push to pending failed" ∧
      getV (sendScheduleMsg Q payload t now opts id f st).1 (RKey.pending Q.name) =
        getV st (RKey.pending Q.name) ∧
      getV (sendScheduleMsg Q payload t now opts id f st).1 (RKey.msg Q.name id) =
        some (RVal.str payload ((t - now) + Q.msgTTL)) ∧
      hget (sendScheduleMsg Q payload t now opts id f st).1 (RKey.retryCnt Q.name) id =
        some ((parseRetryCount Q.defaultRetryCount opts : Nat) : Int)) ∧
    ((sendScheduleMsg Q payload t now opts id sendOk st).2 = none ∧
      getV (sendScheduleMsg Q payload t now opts id sendOk st).1 (RKey.msg Q.name id) =
        some (RVal.str payload ((t - now) + Q.msgTTL)) ∧
      hget (sendScheduleMsg Q payload t now opts id sendOk st).1 (RKey.retryCnt Q.name) id =
        some ((parseRetryCount Q.defaultRetryCount opts : Nat) : Int) ∧
      zscore (sendScheduleMsg Q payload t now opts id sendOk st).1 (RKey.pending Q.name) id =
        some t) := by
  have hmr : RKey.retryCnt Q.name ≠ RKey.msg Q.name id := by simp
  have hpm : RKey.pending Q.name ≠ RKey.msg Q.name id := by simp
  have hpr : RKey.pending Q.name ≠ RKey.retryCnt Q.name := by simp
  have hmr' : RKey.msg Q.name id ≠ RKey.retryCnt Q.name := by simp
  refine ⟨?_, ?_, ?_, sendOk_writes Q payload t now opts id st hC hP⟩
  · intro f hf
    unfold sendScheduleMsg
    simp only [hf, if_true]
  · intro f hf1 hf2
    unfold sendScheduleMsg
    simp only [hf1, hf2, Bool.false_eq_true, if_false, if_true]
  · intro f hf1 hf2 hf3
    set st1 := setStr st (RKey.msg Q.name id) payload ((t - now) + Q.msgTTL) with hst1
    have hC1 : noneOrHash (getV st1 (RKey.retryCnt Q.name)) = true := by
      rw [hst1]; unfold setStr; rw [getV_setV_ne st _ hmr]; exact hC
    obtain ⟨st2, hok2, hg2, _, hkfr2, _⟩ :=
      hset_ok_of_shape hC1 id ((parseRetryCount Q.defaultRetryCount opts : Nat) : Int)
    have hrun : sendScheduleMsg Q payload t now opts id f st = (st2, some "push to pending failed") := by
      unfold sendScheduleMsg
      simp only [hf1, hf2, hf3, Bool.false_eq_true, if_false, if_true, ← hst1, hok2]
    rw [hrun]
    refine ⟨rfl, ?_, ?_, ?_⟩
    · rw [hkfr2 _ hpr, hst1]
      unfold setStr
      rw [getV_setV_ne st _ hpm]
    · rw [hkfr2 _ hmr', hst1]
      unfold setStr
      exact getV_setV_self st _ _
    · exact hg2

/-- Witness for C5 at a concrete input: empty store, fault on the
retry-count write; the send aborts with the distinct error text and the
store holds exactly the payload key. -/
theorem c5_witness :
    sendScheduleMsg sampleQ "p" 40 10 [] "a" ⟨false, true, false⟩ [] =
      ([(RKey.msg "q" "a", RVal.str "p" 3630)], some "store retry count failed") ∧
    (sendScheduleMsg sampleQ "p" 40 10 [] "a" sendOk []).2 = none := by
  have h := c5_sendScheduleMsg_order sampleQ "p" 40 10 [] "a" [] rfl rfl
  constructor
  · have h2 := h.2.1 ⟨false, true, false⟩ rfl rfl
    rw [h2]; rfl
  · exact h.2.2.2.1

/-- C9: a negative retry-count option is accepted without validation and
stored as Go's unsigned conversion `uint(n)`; for any `n` in the range of
Go's 64-bit `int` with `n < 0` that value is `2^64 + n`, and for `n = −1`
it is `2^64 − 1` — an effectively unbounded retry budget, not an error. -/
theorem c9_negative_retryCount_stored (Q : DelayQueue) (payload : String)
    (t now : Int) (id : String) (st : Store) (n : Int)
    (hC : noneOrHash (getV st (RKey.retryCnt Q.name)) = true)
    (hP : noneOrZset (getV st (RKey.pending Q.name)) = true)
    (hlo : -(2 ^ 63) ≤ n) (hneg : n < 0) :
    (sendScheduleMsg Q payload t now [.retryCountOpt n] id sendOk st).2 = none ∧
    hget (sendScheduleMsg Q payload t now [.retryCountOpt n] id sendOk st).1
        (RKey.retryCnt Q.name) id = some ((goUint n : Nat) : Int) ∧
    ((goUint n : Nat) : Int) = 2 ^ 64 + n ∧
    goUint (-1) = 2 ^ 64 - 1 := by
  have h := sendOk_writes Q payload t now [.retryCountOpt n] id st hC hP
  have hparse : parseRetryCount Q.defaultRetryCount [.retryCountOpt n] = goUint n := rfl
  refine ⟨h.1, ?_, ?_, ?_⟩
  · rw [← hparse]; exact h.2.2.1
  · unfold goUint
    have hmod : n % (2 : Int) ^ 64 = n + 2 ^ 64 := by omega
    have hnn : (0 : Int) ≤ n % (2 : Int) ^ 64 := Int.emod_nonneg n (by positivity)
    rw [Int.toNat_of_nonneg hnn, hmod]
    ring
  · decide

/-- Witness for C9 at a concrete input: sending with `WithRetryCount(-1)`
into an empty store succeeds and stores the retry budget 2^64 − 1. -/
theorem c9_witness :
    (sendScheduleMsg sampleQ "p" 40 10 [.retryCountOpt (-1)] "a" sendOk []).2 = none ∧
    hget (sendScheduleMsg sampleQ "p" 40 10 [.retryCountOpt (-1)] "a" sendOk []).1
        (RKey.retryCnt "q") "a" = some ((goUint (-1) : Nat) : Int) := by
  have h := c9_negative_retryCount_stored sampleQ "p" 40 10 "a" [] (-1) rfl rfl
    (by norm_num) (by norm_num)
  exact ⟨h.1, h.2.1⟩

/-- Store used by the C10 witness: "a" is unacked and its payload exists. -/
def c10Store : Store := [(.unack "q", .zset [("a", 15)]), (.msg "q" "a", .str "p" 10)]

/-- C10: `ack(id)` returns an error iff the `ZRem` on the unack key fails;
a failure of the payload-key `Del` or of the retry-count `HDel` is
silently discarded — `ack` still reports success and the payload key
(resp. the retry-count entry) is left behind exactly as it was. -/
theorem c10_ack_error_iff (Q : DelayQueue) (id : String) (f : AckFaults) (st : Store)
    (hU : noneOrZset (getV st (RKey.unack Q.name)) = true) :
    ((ack Q id f st).2 ≠ none ↔ f.fZRem = true) ∧
    (f.fZRem = false → (ack Q id f st).2 = none) ∧
    (f.fZRem = false → f.fDel = true →
      getV (ack Q id f st).1 (RKey.msg Q.name id) = getV st (RKey.msg Q.name id)) ∧
    (f.fZRem = false → f.fHDel = true →
      getV (ack Q id f st).1 (RKey.retryCnt Q.name) = getV st (RKey.retryCnt Q.name)) := by
  have hmu : RKey.msg Q.name id ≠ RKey.unack Q.name := by simp
  have hmc : RKey.msg Q.name id ≠ RKey.retryCnt Q.name := by simp
  have hcu : RKey.retryCnt Q.name ≠ RKey.unack Q.name := by simp
  have hcm : RKey.retryCnt Q.name ≠ RKey.msg Q.name id := by simp
  cases hzr : f.fZRem with
  | true =>
    have hack : ack Q id f st = (st, some "remove from unack failed") := by
      unfold ack; rw [hzr]; simp
    refine ⟨?_, ?_, ?_, ?_⟩
    · rw [hack]; simp
    · intro hc; simp [hzr] at hc
    · intro hc; simp [hzr] at hc
    · intro hc; simp [hzr] at hc
  | false =>
    obtain ⟨st1, hok1, _, hkfr1, _⟩ := zrem_ok_of_shape hU id
    have hmsg1 : getV st1 (RKey.msg Q.name id) = getV st (RKey.msg Q.name id) :=
      hkfr1 _ hmu
    have hcnt1 : getV st1 (RKey.retryCnt Q.name) = getV st (RKey.retryCnt Q.name) :=
      hkfr1 _ hcu
    set st2 := if f.fDel then st1 else delV st1 (.msg Q.name id) with hst2
    set st3 := (if f.fHDel then st2 else
      match hdel st2 (RKey.retryCnt Q.name) id with
      | .ok s => s
      | .error _ => st2) with hst3
    have hack : ack Q id f st = (st3, none) := by
      unfold ack
      rw [hzr]
      simp only [Bool.false_eq_true, if_false, hok1, ← hst2, ← hst3]
    refine ⟨?_, ?_, ?_, ?_⟩
    · rw [hack]; simp
    · intro _; rw [hack]
    · intro _ hDel1
      have hm2 : getV st2 (RKey.msg Q.name id) = getV st1 (RKey.msg Q.name id) := by
        rw [hst2, hDel1]; simp
      have hm3 : getV st3 (RKey.msg Q.name id) = getV st2 (RKey.msg Q.name id) := by
        rw [hst3]
        cases hhd : f.fHDel with
        | true => simp
        | false =>
          simp only [Bool.false_eq_true, if_false]
          cases hh : hdel st2 (RKey.retryCnt Q.name) id with
          | error e => rfl
          | ok s => exact hdel_frame hh hmc
      rw [hack]
      exact (hm3.trans hm2).trans hmsg1
    · intro _ hHDel1
      have hc3 : getV st3 (RKey.retryCnt Q.name) = getV st2 (RKey.retryCnt Q.name) := by
        rw [hst3, hHDel1]; simp
      have hc2 : getV st2 (RKey.retryCnt Q.name) = getV st1 (RKey.retryCnt Q.name) := by
        rw [hst2]
        cases hd : f.fDel with
        | true => simp
        | false =>
          simp only [Bool.false_eq_true, if_false]
          exact getV_delV_ne st1 hcm
      rw [hack]
      exact (hc3.trans hc2).trans hcnt1

/-- Witness for C10 at a concrete input: with the payload-delete failing,
`ack` still succeeds and the payload key survives. -/
theorem c10_witness :
    (ack sampleQ "a" ⟨false, true, false⟩ c10Store).2 = none ∧
    getV (ack sampleQ "a" ⟨false, true, false⟩ c10Store).1 (RKey.msg "q" "a") =
      some (RVal.str "p" 10) := by
  have h := c10_ack_error_iff sampleQ "a" ⟨false, true, false⟩ c10Store rfl
  refine ⟨h.2.1 rfl, ?_⟩
  exact (h.2.2.1 rfl rfl).trans rfl

/-- Bound on a drain loop's ghost transcript: starting from counter `cnt`,
at most `max 1 (fetchLimit − cnt)` further ids are processed, because the
loop breaks when the pop returns the `redis.Nil` sentinel or when the
counter reaches `fetchLimit` — but the counter check happens *after* an id
has been processed.  Induction on an upper bound of the source length. -/
theorem consumeLoop_out_le (Q : DelayQueue) (cb : String → Bool) (b : Bool) (now : Int) :
    ∀ (n : Nat) (st : Store) (cnt : Nat) (acc : List (String × Bool)),
      listLen st (srcKey Q b) ≤ n →
      (consumeLoop Q cb b now cnt acc st).2.1.length ≤ acc.length + max 1 (Q.fetchLimit - cnt) := by
  intro n
  induction n with
  | zero =>
    intro st cnt acc hle
    rw [consumeLoop.eq_def]
    split
    · simp
    · simp
    · next id st' hpop =>
      have := list2Unack_got_len (srcKey_ne_unack Q b) hpop
      omega
  | succ n ih =>
    intro st cnt acc hle
    rw [consumeLoop.eq_def]
    split
    · simp
    · simp
    · next id st' hpop =>
      have hlt := list2Unack_got_len (srcKey_ne_unack Q b) hpop
      split
      · simp
      · next ackFlag invoked _ =>
        split
        · simp
        · next st2 hstep =>
          have hst2 : getV st2 (srcKey Q b) = getV st' (srcKey Q b) := by
            cases ackFlag
            · have hstep' : nack Q id now st' = (st2, none) := by simpa using hstep
              have hfst : st2 = (nack Q id now st').1 := by rw [hstep']
              rw [hfst]; exact nack_frame (srcKey_ne_unack Q b) st'
            · have hstep' : ack Q id ackOkF st' = (st2, none) := by simpa using hstep
              have hfst : st2 = (ack Q id ackOkF st').1 := by rw [hstep']
              rw [hfst]
              exact ack_frame (srcKey_ne_unack Q b) (srcKey_ne_msg Q b id)
                (srcKey_ne_retryCnt Q b) st'
          have hlen2 : listLen st2 (srcKey Q b) ≤ n := by
            have := listLen_congr hst2
            omega
          split
          · simp
          · next hnlim =>
            have hrec := ih st2 (cnt + 1) (acc ++ [(id, invoked)]) hlen2
            have hlim : cnt + 2 ≤ Q.fetchLimit := by omega
            have hm1 : max 1 (Q.fetchLimit - (cnt + 1)) = Q.fetchLimit - (cnt + 1) :=
              Nat.max_eq_right (by omega)
            have hm2 : max 1 (Q.fetchLimit - cnt) = Q.fetchLimit - cnt :=
              Nat.max_eq_right (by omega)
            simp only [List.length_append, List.length_cons, List.length_nil] at hrec ⊢
            omega

/-- C3 (amended): each drain loop stops when the pop returns the not-found
sentinel or when its counter reaches `fetchLimit`, the counters of the two
loops are independent (each starts at 0); since the counter is checked
only *after* a message has been processed, the per-loop bound is
`max 1 fetchLimit` — equal to `fetchLimit` for every `fetchLimit ≥ 1`, but
one message can be processed when `fetchLimit = 0`. -/
theorem c3_consume_fetchLimit_bound (Q : DelayQueue) (cb : String → Bool)
    (now : Int) (st : Store) :
    (consume Q cb now st).2.1.length ≤ max 1 Q.fetchLimit ∧
    (consume Q cb now st).2.2.1.length ≤ max 1 Q.fetchLimit ∧
    (1 ≤ Q.fetchLimit →
      (consume Q cb now st).2.1.length ≤ Q.fetchLimit ∧
      (consume Q cb now st).2.2.1.length ≤ Q.fetchLimit) := by
  have hloop : ∀ (b : Bool) (st0 : Store),
      (consumeLoop Q cb b now 0 [] st0).2.1.length ≤ max 1 Q.fetchLimit := by
    intro b st0
    have h := consumeLoop_out_le Q cb b now (listLen st0 (srcKey Q b)) st0 0 []
      (le_refl _)
    simpa using h
  have hmain :
      (consume Q cb now st).2.1.length ≤ max 1 Q.fetchLimit ∧
      (consume Q cb now st).2.2.1.length ≤ max 1 Q.fetchLimit := by
    unfold consume
    split
    · simp
    · next st1 hp2r =>
      split
      · next st2 rdy e hloopeq =>
        have := hloop false st1
        rw [hloopeq] at this
        simp only at this ⊢
        simp [this]
      · next st2 rdy hloopeq =>
        have hrdy := hloop false st1
        rw [hloopeq] at hrdy
        simp only at hrdy
        split
        · simp [hrdy]
        · next st3 hu2r =>
          split
          · simp [hrdy]
          · next st4 hgc =>
            split
            · next st5 rty e hloopeq2 =>
              have hrty := hloop true st4
              rw [hloopeq2] at hrty
              simp only at hrty
              exact ⟨hrdy, hrty⟩
  refine ⟨hmain.1, hmain.2, fun hge => ⟨?_, ?_⟩⟩
  · have := hmain.1
    have hm : max 1 Q.fetchLimit = Q.fetchLimit := Nat.max_eq_right hge
    omega
  · have := hmain.2
    have hm : max 1 Q.fetchLimit = Q.fetchLimit := Nat.max_eq_right hge
    omega

/-- Witness for C3's amended bound at a concrete input: one tick on the
empty store with the default configuration processes no messages in either
loop, within the bound, and the `fetchLimit ≥ 1` strengthening applies. -/
theorem c3_witness :
    (consume sampleQ (fun _ => true) 10 []).2.1.length ≤ max 1 sampleQ.fetchLimit ∧
    (consume sampleQ (fun _ => true) 10 []).2.2.1.length ≤ sampleQ.fetchLimit := by
  have h := c3_consume_fetchLimit_bound sampleQ (fun _ => true) 10 []
  exact ⟨h.1, (h.2.2 (by norm_num [sampleQ])).2⟩

/-- Queue configuration with `fetchLimit = 0`, used by the C3
counterexample. -/
def qZero : DelayQueue := ⟨"q", 5, 3600, 3, 0⟩

/-- Store for the C3 counterexample: one message in the retry list with a
positive retry budget. -/
def c3Store : Store := [(.retryL "q", .list ["a"]), (.retryCnt "q", .hash [("a", 3)])]

/-- C3 counterexample: with `fetchLimit = 0` the retry drain loop still
processes one message — the Go loop increments `fetchCount` and compares
it to `fetchLimit` only after the message has been fetched, delivered and
acked — so "each loop processes at most fetchLimit messages per tick for
every fetchLimit value" is false at `fetchLimit = 0`. -/
theorem c3_counterexample :
    (consume qZero (fun _ => true) 10 c3Store).2.2.1.length = 1 ∧
    ¬ ((consume qZero (fun _ => true) 10 c3Store).2.2.1.length ≤ qZero.fetchLimit) := by
  have h : consume qZero (fun _ => true) 10 c3Store = ([], [], [("a", false)], none) := by
    simp [consume, consumeLoop, pending2Ready, pending2ReadyScript, keyAt,
      zrangebyscore, getV, list2Unack, ready2UnackScript, rpop, zadd,
      unack2Retry, unack2RetryScript, garbageCollect, smembers, callback,
      getStr, ack, ackOkF, zrem, hdel, srcKey, putList, putZ,
      putH, setV, delV, zaddList, zinsert, zless, hfield, setStr, qZero, c3Store]
  rw [h]
  exact ⟨rfl, by decide⟩

/-- C4: `ready2Unack` (and identically `retry2Unack`, which shares
`ready2UnackScript`) pops exactly one id per invocation — the FIFO head of
the source list, i.e. the earliest-pushed element (`RPop` against lists
built by `LPush`; in this model the list head is the most recent push, so
the FIFO head is the final element) — adds it to `unack` with score equal
to the ack deadline `now + maxConsumeDuration`, and returns it.  On an
absent source key it returns the `redis.Nil` sentinel with the store
unchanged, and the consume drain loop breaks on that sentinel without
treating it as an error. -/
theorem c4_ready2Unack_spec (Q : DelayQueue) (now : Int) (st : Store) :
    (getV st (RKey.ready Q.name) = none →
      ready2Unack Q now st = .nilP st ∧
      (∀ cb cnt acc, consumeLoop Q cb false now cnt acc st = (st, acc, none))) ∧
    (∀ l : List String, getV st (RKey.ready Q.name) = some (RVal.list l) →
      ∀ h : l ≠ [],
      noneOrZset (getV st (RKey.unack Q.name)) = true →
      ∃ st', ready2Unack Q now st = .gotP (l.getLast h) st' ∧
        getV st' (RKey.ready Q.name) =
          (if l.dropLast = [] then none else some (RVal.list l.dropLast)) ∧
        zscore st' (RKey.unack Q.name) (l.getLast h) =
          some (now + Q.maxConsumeDuration) ∧
        listLen st' (RKey.ready Q.name) + 1 = listLen st (RKey.ready Q.name)) := by
  have hur : RKey.unack Q.name ≠ RKey.ready Q.name := by simp
  constructor
  · intro hnone
    have hnil : list2Unack Q (RKey.ready Q.name) now st = .nilP st := by
      simp [list2Unack, ready2UnackScript, keyAt, rpop, hnone]
    refine ⟨hnil, ?_⟩
    intro cb cnt acc
    rw [consumeLoop.eq_def]
    have hsrc : srcKey Q false = RKey.ready Q.name := rfl
    rw [hsrc, hnil]
  · intro l hl h hU
    have hpop : rpop st (RKey.ready Q.name) =
        .ok (some (l.getLast h), putList st (RKey.ready Q.name) l.dropLast) := by
      simp [rpop, hl, List.getLast?_eq_getLast l h]
    have hU1 : noneOrZset (getV (putList st (RKey.ready Q.name) l.dropLast)
        (RKey.unack Q.name)) = true := by
      rw [getV_putList_ne st _ hur]; exact hU
    obtain ⟨st', hok, hz, _, hkfr, _⟩ :=
      zadd_ok_of_shape hU1 (now + Q.maxConsumeDuration) (l.getLast h)
    refine ⟨st', ?_, ?_, hz, ?_⟩
    · simp [ready2Unack, list2Unack, ready2UnackScript, keyAt, hpop, hok]
    · rw [hkfr _ (by simp : RKey.ready Q.name ≠ RKey.unack Q.name)]
      exact getV_putList_self st _ _
    · have e1 : getV st' (RKey.ready Q.name) =
          (if l.dropLast = [] then none else some (RVal.list l.dropLast)) := by
        rw [hkfr _ (by simp : RKey.ready Q.name ≠ RKey.unack Q.name)]
        exact getV_putList_self st _ _
      have e2 : listLen st' (RKey.ready Q.name) = l.dropLast.length := by
        by_cases hd : l.dropLast = []
        · simp [listLen, e1, hd]
        · simp [listLen, e1, hd]
      have e3 : listLen st (RKey.ready Q.name) = l.length := by
        unfold listLen; rw [hl]
      have e4 : l.dropLast.length = l.length - 1 := by simp
      have e5 : 0 < l.length := List.length_pos.mpr h
      omega

/-- Witness for C4 at concrete inputs: the empty store yields the nil
sentinel, and a two-element ready list yields its earliest-pushed element
"a" with the ack deadline 10 + 5 = 15 on the unack key. -/
theorem c4_witness :
    ready2Unack sampleQ 10 [] = .nilP [] ∧
    consumeLoop sampleQ (fun _ => true) false 10 0 [] [] = ([], [], none) ∧
    (∃ st', ready2Unack sampleQ 10 [(RKey.ready "q", RVal.list ["b", "a"])] =
        .gotP "a" st' ∧
      zscore st' (RKey.unack "q") "a" = some 15) := by
  have h1 := (c4_ready2Unack_spec sampleQ 10 []).1 rfl
  have h2 := (c4_ready2Unack_spec sampleQ 10
      [(RKey.ready "q", RVal.list ["b", "a"])]).2 ["b", "a"] rfl (by simp) rfl
  obtain ⟨st', hgot, _, hz, _⟩ := h2
  have hlast : ∀ hp : (["b", "a"] : List String) ≠ [],
      (["b", "a"] : List String).getLast hp = "a" := fun _ => rfl
  simp only [hlast] at hgot hz
  refine ⟨h1.1, h1.2 (fun _ => true) 0 [], ⟨st', hgot, hz.trans (by norm_num [sampleQ])⟩⟩

/-- C6: when the payload key of a delivered id is absent (its TTL
elapsed), `callback` returns `(true, nil)` without invoking the user
callback, and the drain loop therefore runs the ack path: the retry-count
entry is deleted, the id is not left in `unack`, and it is not re-queued —
the message is silently dropped rather than retried.  The ghost transcript
entry `(id, false)` records that it was processed with the user callback
not invoked. -/
theorem c6_expired_payload_acked (Q : DelayQueue) (cb : String → Bool) (now : Int)
    (st : Store) (id : String)
    (hmsg : getV st (RKey.msg Q.name id) = none)
    (hsrc : getV st (RKey.retryL Q.name) = some (RVal.list [id]))
    (hU : noneOrZset (getV st (RKey.unack Q.name)) = true)
    (hC : noneOrHash (getV st (RKey.retryCnt Q.name)) = true) :
    callback Q cb id st = .cok true false ∧
    ∃ st', consumeLoop Q cb true now 0 [] st = (st', [(id, false)], none) ∧
      hget st' (RKey.retryCnt Q.name) id = none ∧
      zmem st' (RKey.unack Q.name) id = false ∧
      getV st' (RKey.retryL Q.name) = none := by
  have hum : RKey.unack Q.name ≠ RKey.retryL Q.name := by simp
  have hmm : RKey.msg Q.name id ≠ RKey.retryL Q.name := by simp
  have hcm : RKey.retryCnt Q.name ≠ RKey.retryL Q.name := by simp
  have hmu : RKey.msg Q.name id ≠ RKey.unack Q.name := by simp
  have hcu : RKey.retryCnt Q.name ≠ RKey.unack Q.name := by simp
  have hcg : RKey.retryCnt Q.name ≠ RKey.msg Q.name id := by simp
  have hrm : RKey.retryL Q.name ≠ RKey.msg Q.name id := by simp
  have hru : RKey.retryL Q.name ≠ RKey.unack Q.name := by simp
  have hrc : RKey.retryL Q.name ≠ RKey.retryCnt Q.name := by simp
  have huc : RKey.unack Q.name ≠ RKey.retryCnt Q.name := by simp
  have hum2 : RKey.unack Q.name ≠ RKey.msg Q.name id := by simp
  -- the pop: RPop returns id and deletes the now-empty retry list
  set st1 : Store := putList st (RKey.retryL Q.name) [] with hst1
  have hretry1 : getV st1 (RKey.retryL Q.name) = none := by
    rw [hst1]; simp [putList, getV_delV_self]
  have hU1 : noneOrZset (getV st1 (RKey.unack Q.name)) = true := by
    rw [hst1, getV_putList_ne st _ hum]; exact hU
  obtain ⟨st2, hok2, hz2, hzm2, hkfr2, hsh2⟩ :=
    zadd_ok_of_shape hU1 (now + Q.maxConsumeDuration) id
  have hpop : list2Unack Q (srcKey Q true) now st = .gotP id st2 := by
    have hsk : srcKey Q true = RKey.retryL Q.name := rfl
    rw [hsk]
    simp [list2Unack, ready2UnackScript, keyAt, rpop, hsrc, ← hst1, hok2]
  -- the payload fetch at the post-pop store: still absent
  have hmsg2 : getV st2 (RKey.msg Q.name id) = none := by
    rw [hkfr2 _ hmu, hst1, getV_putList_ne st _ hmm]; exact hmsg
  have hcb : callback Q cb id st2 = .cok true false := by
    simp [callback, getStr, hmsg2]
  -- the ack path
  obtain ⟨st3, hok3, hzm3, hkfr3, hsh3⟩ := zrem_ok_of_shape hsh2 id
  set st4 : Store := delV st3 (RKey.msg Q.name id) with hst4
  have hC4 : noneOrHash (getV st4 (RKey.retryCnt Q.name)) = true := by
    rw [hst4, getV_delV_ne st3 hcg, hkfr3 _ hcu, hkfr2 _ hcu, hst1,
      getV_putList_ne st _ hcm]
    exact hC
  obtain ⟨st5, hok5, hg5, _, hkfr5, _⟩ := hdel_ok_of_shape hC4 id
  have hack : ack Q id ackOkF st2 = (st5, none) := by
    unfold ack
    simp only [ackOkF, Bool.false_eq_true, if_false, hok3, ← hst4, hok5]
  -- the final store facts
  have hretry5 : getV st5 (RKey.retryL Q.name) = none := by
    rw [hkfr5 _ hrc, hst4, getV_delV_ne st3 hrm, hkfr3 _ hru, hkfr2 _ hru]
    exact hretry1
  have hunack5 : zmem st5 (RKey.unack Q.name) id = false := by
    have heq : getV st5 (RKey.unack Q.name) = getV st3 (RKey.unack Q.name) := by
      rw [hkfr5 _ huc, hst4, getV_delV_ne st3 hum2]
    rw [zmem_congr heq id]
    exact hzm3
  have hpop5 : list2Unack Q (srcKey Q true) now st5 = .nilP st5 := by
    have hsk : srcKey Q true = RKey.retryL Q.name := rfl
    rw [hsk]
    simp [list2Unack, ready2UnackScript, keyAt, rpop, hretry5]
  have hloop : consumeLoop Q cb true now 0 [] st = (st5, [(id, false)], none) := by
    rw [consumeLoop.eq_def]
    split
    · next heq => rw [hpop] at heq; cases heq
    · next heq => rw [hpop] at heq; cases heq
    · next id'' st'' heq =>
      rw [hpop] at heq
      injection heq with h1 h2
      subst h1; subst h2
      split
      · next heq2 => rw [hcb] at heq2; cases heq2
      · next ackFlag invoked heq2 =>
        rw [hcb] at heq2
        injection heq2 with hA hI
        subst hA; subst hI
        split
        · next st'' e heq3 =>
          rw [if_pos rfl, hack] at heq3
          cases heq3
        · next st'' heq3 =>
          rw [if_pos rfl, hack] at heq3
          injection heq3 with h3 h4
          subst h3
          by_cases hfl : 0 + 1 ≥ Q.fetchLimit
          · rw [if_pos hfl]; simp
          · rw [if_neg hfl]
            rw [consumeLoop.eq_def]
            split
            · next heq4 => rw [hpop5] at heq4; cases heq4
            · next st''' heq4 =>
              rw [hpop5] at heq4
              injection heq4 with h5
              subst h5
              simp
            · next id''' st''' heq4 => rw [hpop5] at heq4; cases heq4
  have hcb0 : callback Q cb id st = .cok true false := by
    simp [callback, getStr, hmsg]
  exact ⟨hcb0, st5, hloop, hg5, hunack5, hretry5⟩

/-- Concrete store for the C6 witness: "a" waits on the retry list with a
positive retry budget, but its payload key has expired. -/
def c6Store : Store := [(.retryL "q", .list ["a"]), (.retryCnt "q", .hash [("a", 2)])]

/-- Witness for C6 at a concrete input: even with a callback that would
reject every payload, the expired message is acked without invoking it and
its retry budget entry disappears. -/
theorem c6_witness :
    callback sampleQ (fun _ => false) "a" c6Store = .cok true false ∧
    ∃ st', consumeLoop sampleQ (fun _ => false) true 10 0 [] c6Store =
        (st', [("a", false)], none) ∧
      hget st' (RKey.retryCnt "q") "a" = none := by
  have h := c6_expired_payload_acked sampleQ (fun _ => false) 10 c6Store "a"
    rfl rfl rfl rfl
  obtain ⟨hcb, st', hloop, hg, _, _⟩ := h
  exact ⟨hcb, st', hloop, hg⟩

/-- Store for the C2 counterexample: "a" is eligible in unack (score 5)
but the retry-count hash has no entry for it. -/
def c2Store : Store := [(.unack "q", .zset [("a", 5)])]

/-- C2 counterexample: for an eligible id whose retry-count hash entry is
missing, the claim says the script deletes the hash entry, adds the id to
garbage and removes it from unack.  Instead Lua's `tonumber(v) > 0` with
`v = nil` raises "attempt to compare nil with a number": the script
aborts, `unack2Retry` returns an error, and the id is neither added to
garbage nor removed from unack. -/
theorem c2_counterexample :
    (unack2Retry sampleQ 10 c2Store).2 =
      some "unack to retry script failed:attempt to compare nil with a number" ∧
    smem (unack2Retry sampleQ 10 c2Store).1 (RKey.garbage "q") "a" = false ∧
    zmem (unack2Retry sampleQ 10 c2Store).1 (RKey.unack "q") "a" = true := by
  exact ⟨rfl, rfl, rfl⟩

/-- Entries of a sorted set with duplicate-free members are determined by
their member. -/
theorem eq_of_fst_eq_of_nodup {zs : List (String × Int)}
    (hnd : (zs.map Prod.fst).Nodup) {p q : String × Int}
    (hp : p ∈ zs) (hq : q ∈ zs) (hfst : p.1 = q.1) : p = q := by
  induction zs with
  | nil => cases hp
  | cons x xs ih =>
    rw [List.map_cons, List.nodup_cons] at hnd
    rcases List.mem_cons.mp hp with rfl | hp'
    · rcases List.mem_cons.mp hq with rfl | hq'
      · rfl
      · exact absurd (hfst ▸ List.mem_map_of_mem Prod.fst hq') hnd.1
    · rcases List.mem_cons.mp hq with rfl | hq'
      · exact absurd (hfst ▸ List.mem_map_of_mem Prod.fst hp') hnd.1
      · exact ih hnd.2 hp' hq'

/-- Specification of the per-id loop of `unack2RetryScript` when every
processed id has a retry-count entry: the loop succeeds; an id with
positive count is decremented in place and pushed on the retry list, an id
with count ≤ 0 loses its hash entry and joins the garbage set; hash fields
outside the batch and keys other than the three written ones are
untouched, and retry/garbage memberships only grow. -/
theorem u2rLoop_spec {kCnt kRetry kGarbage : RKey}
    (hrc : kRetry ≠ kCnt) (hgc : kGarbage ≠ kCnt) (hgr : kGarbage ≠ kRetry)
    (hcr : kCnt ≠ kRetry) (hcg : kCnt ≠ kGarbage) (hrg : kRetry ≠ kGarbage) :
    ∀ (pairs : List (String × Option Int)) (st : Store),
      (pairs.map Prod.fst).Nodup →
      (∀ k c, (k, some c) ∈ pairs → hget st kCnt k = some c) →
      (∀ p ∈ pairs, p.2 ≠ none) →
      noneOrHash (getV st kCnt) = true →
      noneOrList (getV st kRetry) = true →
      noneOrSet (getV st kGarbage) = true →
      ∃ st', u2rLoop kCnt kRetry kGarbage pairs st = .ok none st' ∧
        (∀ k c, (k, some c) ∈ pairs →
          (0 < c → hget st' kCnt k = some (c - 1) ∧ lmem st' kRetry k = true) ∧
          (c ≤ 0 → hget st' kCnt k = none ∧ smem st' kGarbage k = true)) ∧
        (∀ f, f ∉ pairs.map Prod.fst → hget st' kCnt f = hget st kCnt f) ∧
        (∀ x, lmem st kRetry x = true → lmem st' kRetry x = true) ∧
        (∀ x, smem st kGarbage x = true → smem st' kGarbage x = true) ∧
        (∀ k', k' ≠ kCnt → k' ≠ kRetry → k' ≠ kGarbage → getV st' k' = getV st k') := by
  intro pairs
  induction pairs with
  | nil =>
    intro st _ _ _ _ _ _
    exact ⟨st, rfl, by simp, fun f _ => rfl, fun x hx => hx, fun x hx => hx,
      fun k' _ _ _ => rfl⟩
  | cons p rest ih =>
    obtain ⟨k, v⟩ := p
    intro st hnd hcons hall hH hL hS
    cases v with
    | none =>
      have h0 := hall (k, none) (List.mem_cons_self _ _)
      simp at h0
    | some c =>
      have hk : hget st kCnt k = some c := hcons k c (List.mem_cons_self _ _)
      have hnd' := hnd
      rw [List.map_cons, List.nodup_cons] at hnd'
      have hknr : k ∉ rest.map Prod.fst := hnd'.1
      have hndr : (rest.map Prod.fst).Nodup := hnd'.2
      by_cases hc : 0 < c
      · -- count > 0 : HIncrBy -1 then LPush to retry
        obtain ⟨stA, hokA, hgA, hfrA, hkA, hshA⟩ := hincrby_ok_of_field hk (-1)
        have hLA : noneOrList (getV stA kRetry) = true := by rw [hkA _ hrc]; exact hL
        obtain ⟨stB, hokB, hmB, hmonoB, hkB, hshB⟩ := lpush_one_ok hLA k
        have hHB : noneOrHash (getV stB kCnt) = true := by rw [hkB _ hcr]; exact hshA
        have hSB : noneOrSet (getV stB kGarbage) = true := by
          rw [hkB _ hgr, hkA _ hgc]; exact hS
        have hconsB : ∀ k0 c0, (k0, some c0) ∈ rest → hget stB kCnt k0 = some c0 := by
          intro k0 c0 hm
          have hk0 : k0 ≠ k := fun he => hknr (he ▸ List.mem_map_of_mem Prod.fst hm)
          rw [hget_congr (hkB _ hcr) k0, hfrA k0 hk0]
          exact hcons k0 c0 (List.mem_cons_of_mem _ hm)
        obtain ⟨st', hrun, hmain, hframe, hlmono, hsmono, hkeys⟩ :=
          ih stB hndr hconsB (fun p hp => hall p (List.mem_cons_of_mem _ hp)) hHB hshB hSB
        have hrun' : u2rLoop kCnt kRetry kGarbage ((k, some c) :: rest) st = .ok none st' := by
          simp [u2rLoop, hc, hokA, hokB, hrun]
        have hheadCnt : hget st' kCnt k = some (c - 1) := by
          rw [hframe k hknr, hget_congr (hkB _ hcr) k, hgA]
          congr 1
        have hheadRetry : lmem st' kRetry k = true := hlmono k hmB
        refine ⟨st', hrun', ?_, ?_, ?_, ?_, ?_⟩
        · intro k0 c0 hm
          rcases List.mem_cons.mp hm with heq | hm'
          · obtain ⟨rfl, rfl⟩ : k0 = k ∧ c0 = c := by
              constructor <;> [exact congrArg Prod.fst heq; simpa using congrArg Prod.snd heq]
            exact ⟨fun _ => ⟨hheadCnt, hheadRetry⟩, fun hle => absurd hc (by omega)⟩
          · exact hmain k0 c0 hm'
        · intro f hf
          have hfk : f ≠ k := fun he => hf (he ▸ List.mem_cons_self _ _)
          have hfr : f ∉ rest.map Prod.fst := fun he => hf (by
            rw [List.map_cons]; exact List.mem_cons_of_mem _ he)
          rw [hframe f hfr, hget_congr (hkB _ hcr) f, hfrA f hfk]
        · intro x hx
          exact hlmono x (hmonoB x (by rwa [lmem_congr (hkA _ hrc) x]))
        · intro x hx
          apply hsmono x
          rwa [smem_congr (hkB _ hgr) x, smem_congr (hkA _ hgc) x]
        · intro k' h1 h2 h3
          rw [hkeys k' h1 h2 h3, hkB _ h2, hkA _ h1]
      · -- count ≤ 0 : HDel then SAdd to garbage
        obtain ⟨stA, hokA, hgA, hfrA, hkA, hshA⟩ := hdel_ok_of_shape hH k
        have hSA : noneOrSet (getV stA kGarbage) = true := by rw [hkA _ hgc]; exact hS
        obtain ⟨stB, hokB, hsB, hsmonoB, _, hkB, hshB⟩ := sadd_ok_of_shape hSA k
        have hHB : noneOrHash (getV stB kCnt) = true := by rw [hkB _ hcg]; exact hshA
        have hLB : noneOrList (getV stB kRetry) = true := by
          rw [hkB _ hrg, hkA _ hrc]; exact hL
        have hconsB : ∀ k0 c0, (k0, some c0) ∈ rest → hget stB kCnt k0 = some c0 := by
          intro k0 c0 hm
          have hk0 : k0 ≠ k := fun he => hknr (he ▸ List.mem_map_of_mem Prod.fst hm)
          rw [hget_congr (hkB _ hcg) k0, hfrA k0 hk0]
          exact hcons k0 c0 (List.mem_cons_of_mem _ hm)
        obtain ⟨st', hrun, hmain, hframe, hlmono, hsmono, hkeys⟩ :=
          ih stB hndr hconsB (fun p hp => hall p (List.mem_cons_of_mem _ hp)) hHB hLB hshB
        have hrun' : u2rLoop kCnt kRetry kGarbage ((k, some c) :: rest) st = .ok none st' := by
          simp [u2rLoop, hc, hokA, hokB, hrun]
        have hheadCnt : hget st' kCnt k = none := by
          rw [hframe k hknr, hget_congr (hkB _ hcg) k, hgA]
        have hheadGarbage : smem st' kGarbage k = true := hsmono k hsB
        refine ⟨st', hrun', ?_, ?_, ?_, ?_, ?_⟩
        · intro k0 c0 hm
          rcases List.mem_cons.mp hm with heq | hm'
          · obtain ⟨rfl, rfl⟩ : k0 = k ∧ c0 = c := by
              constructor <;> [exact congrArg Prod.fst heq; simpa using congrArg Prod.snd heq]
            exact ⟨fun hpos => absurd hpos hc, fun _ => ⟨hheadCnt, hheadGarbage⟩⟩
          · exact hmain k0 c0 hm'
        · intro f hf
          have hfk : f ≠ k := fun he => hf (he ▸ List.mem_cons_self _ _)
          have hfr : f ∉ rest.map Prod.fst := fun he => hf (by
            rw [List.map_cons]; exact List.mem_cons_of_mem _ he)
          rw [hframe f hfr, hget_congr (hkB _ hcg) f, hfrA f hfk]
        · intro x hx
          apply hlmono x
          rwa [lmem_congr (hkB _ hrg) x, lmem_congr (hkA _ hrc) x]
        · intro x hx
          exact hsmono x (hsmonoB x (by rwa [smem_congr (hkA _ hgc) x]))
        · intro k' h1 h2 h3
          rw [hkeys k' h1 h2 h3, hkB _ h3, hkA _ h1]

/-- C2 (amended): `unack2Retry` collects the ids in `unack` with score in
`[0, now]` (all reachable scores are unix seconds, hence ≥ 0).  *Provided
every collected id has a retry-count hash entry*: an id with count > 0 is
decremented in place and prepended to the retry list, an id with count ≤ 0
loses its hash entry and is added to the garbage set, afterwards all
collected ids are removed from `unack`, and an empty eligible set is a
no-op.  (When a collected id has no retry-count entry the script instead
aborts with a Lua comparison error — see the counterexample — so the
"entry missing" clause of the original claim does not hold.) -/
theorem c2_unack2Retry_spec (Q : DelayQueue) (now : Int) (st : Store) :
    (getV st (RKey.unack Q.name) = none → unack2Retry Q now st = (st, none)) ∧
    (∀ zs, getV st (RKey.unack Q.name) = some (RVal.zset zs) →
      (zs.map Prod.fst).Nodup →
      (zs.filter (fun p => decide (0 ≤ p.2) && decide (p.2 ≤ now)) = [] →
        unack2Retry Q now st = (st, none)) ∧
      (∀ msgs, msgs =
          (zs.filter (fun p => decide (0 ≤ p.2) && decide (p.2 ≤ now))).map Prod.fst →
        (∀ m ∈ msgs, hget st (RKey.retryCnt Q.name) m ≠ none) →
        noneOrList (getV st (RKey.retryL Q.name)) = true →
        noneOrSet (getV st (RKey.garbage Q.name)) = true →
        ∃ stf, unack2Retry Q now st = (stf, none) ∧
          (∀ m c, m ∈ msgs → hget st (RKey.retryCnt Q.name) m = some c →
            (0 < c → hget stf (RKey.retryCnt Q.name) m = some (c - 1) ∧
              lmem stf (RKey.retryL Q.name) m = true) ∧
            (c ≤ 0 → hget stf (RKey.retryCnt Q.name) m = none ∧
              smem stf (RKey.garbage Q.name) m = true)) ∧
          (∀ m ∈ msgs, zmem stf (RKey.unack Q.name) m = false))) := by
  constructor
  · intro hnone
    simp [unack2Retry, unack2RetryScript, keyAt, zrangebyscore, hnone]
  · intro zs hzs hnd
    constructor
    · intro hfe
      simp [unack2Retry, unack2RetryScript, keyAt, zrangebyscore, hzs, hfe]
    · intro msgs hmsgs hall hL hS
      by_cases hne : msgs = []
      · refine ⟨st, ?_, ?_, ?_⟩
        · rw [hmsgs] at hne
          have hfe : zs.filter (fun p => decide (0 ≤ p.2) && decide (p.2 ≤ now)) = [] := by
            rwa [List.map_eq_nil] at hne
          simp [unack2Retry, unack2RetryScript, keyAt, zrangebyscore, hzs, hfe]
        · intro m c hm; rw [hne] at hm; cases hm
        · intro m hm; rw [hne] at hm; cases hm
      · obtain ⟨m0, hm0⟩ := List.exists_mem_of_ne_nil msgs hne
        have hH : ∃ h, getV st (RKey.retryCnt Q.name) = some (RVal.hash h) := by
          cases hv : getV st (RKey.retryCnt Q.name) with
          | none => exact absurd (by simp [hget, hv]) (hall m0 hm0)
          | some v0 =>
            cases v0 with
            | hash h => exact ⟨h, rfl⟩
            | zset a => exact absurd (by simp [hget, hv]) (hall m0 hm0)
            | list a => exact absurd (by simp [hget, hv]) (hall m0 hm0)
            | set a => exact absurd (by simp [hget, hv]) (hall m0 hm0)
            | str a b => exact absurd (by simp [hget, hv]) (hall m0 hm0)
        obtain ⟨h, hhash⟩ := hH
        have hmg : hmget st (RKey.retryCnt Q.name) msgs = .ok (msgs.map (hfield h)) := by
          simp [hmget, hhash]
        have hzip : ∀ l : List String,
            l.zip (l.map (hfield h)) = l.map (fun x => (x, hfield h x)) := by
          intro l
          induction l with
          | nil => rfl
          | cons a t iht => simp [iht]
        have hmsgsnd : msgs.Nodup := by
          rw [hmsgs]
          exact List.Nodup.sublist (List.Sublist.map Prod.fst (List.filter_sublist zs)) hnd
        have hndp : ((msgs.zip (msgs.map (hfield h))).map Prod.fst).Nodup := by
          rw [hzip, List.map_map]
          have hcompid : (Prod.fst ∘ fun x : String => (x, hfield h x)) = fun x => x := rfl
          rw [hcompid, List.map_id']
          exact hmsgsnd
        have hconsp : ∀ k c, (k, some c) ∈ msgs.zip (msgs.map (hfield h)) →
            hget st (RKey.retryCnt Q.name) k = some c := by
          intro k c hkc
          rw [hzip] at hkc
          obtain ⟨x, hx, hxe⟩ := List.mem_map.mp hkc
          have h1 : x = k := congrArg Prod.fst hxe
          have h2 : hfield h x = some c := by simpa using congrArg Prod.snd hxe
          subst h1
          simpa [hget, hhash] using h2
        have hallp : ∀ p ∈ msgs.zip (msgs.map (hfield h)), p.2 ≠ none := by
          intro p hp
          rw [hzip] at hp
          obtain ⟨x, hx, hxe⟩ := List.mem_map.mp hp
          have h2 : p.2 = hfield h x := by rw [← hxe]
          rw [h2]
          simpa [hget, hhash] using hall x hx
        obtain ⟨st', hrunloop, hmain, _, _, _, hkeys⟩ :=
          @u2rLoop_spec (RKey.retryCnt Q.name) (RKey.retryL Q.name)
            (RKey.garbage Q.name)
            (by simp) (by simp) (by simp) (by simp) (by simp) (by simp)
            (msgs.zip (msgs.map (hfield h))) st hndp hconsp hallp
            (by simp [noneOrHash, hhash]) hL hS
        have hst'unack : getV st' (RKey.unack Q.name) = some (RVal.zset zs) := by
          rw [hkeys _ (by simp) (by simp) (by simp)]
          exact hzs
        have hrem : zremrangebyscore st' (RKey.unack Q.name) 0 now =
            .ok (putZ st' (RKey.unack Q.name)
              (zs.filter (fun p => !(decide (0 ≤ p.2) && decide (p.2 ≤ now))))) := by
          simp [zremrangebyscore, hst'unack]
        set stf := putZ st' (RKey.unack Q.name)
          (zs.filter (fun p => !(decide (0 ≤ p.2) && decide (p.2 ≤ now)))) with hstf
        have hwhole : unack2Retry Q now st = (stf, none) := by
          have hfe : ¬ ((zs.filter (fun p => decide (0 ≤ p.2) && decide (p.2 ≤ now))).map
              Prod.fst = []) := by rw [← hmsgs]; exact hne
          simp only [unack2Retry, unack2RetryScript, keyAt]
          simp only [List.get?]
          simp only [zrangebyscore, hzs]
          rw [← hmsgs]
          simp only [hne, if_false, hmg, hrunloop, hrem]
        have hcntfr : getV stf (RKey.retryCnt Q.name) = getV st' (RKey.retryCnt Q.name) := by
          rw [hstf]; exact getV_putZ_ne st' _ (by simp)
        have hretfr : getV stf (RKey.retryL Q.name) = getV st' (RKey.retryL Q.name) := by
          rw [hstf]; exact getV_putZ_ne st' _ (by simp)
        have hgarfr : getV stf (RKey.garbage Q.name) = getV st' (RKey.garbage Q.name) := by
          rw [hstf]; exact getV_putZ_ne st' _ (by simp)
        refine ⟨stf, hwhole, ?_, ?_⟩
        · intro m c hm hc
          have hpair : (m, some c) ∈ msgs.zip (msgs.map (hfield h)) := by
            rw [hzip]
            have : hfield h m = some c := by simpa [hget, hhash] using hc
            rw [← this]
            exact List.mem_map_of_mem _ hm
          have hres := hmain m c hpair
          constructor
          · intro hpos
            obtain ⟨ha, hb⟩ := hres.1 hpos
            exact ⟨(hget_congr hcntfr m).trans ha, (lmem_congr hretfr m).trans hb⟩
          · intro hle
            obtain ⟨ha, hb⟩ := hres.2 hle
            exact ⟨(hget_congr hcntfr m).trans ha, (smem_congr hgarfr m).trans hb⟩
        · intro m hm
          have hmem : ∀ p ∈ zs.filter (fun p => !(decide (0 ≤ p.2) && decide (p.2 ≤ now))),
              (p.1 == m) = false := by
            intro p hp
            have hpz : p ∈ zs := List.mem_of_mem_filter hp
            have hpout := List.of_mem_filter hp
            rw [hmsgs] at hm
            obtain ⟨q, hq, hqe⟩ := List.mem_map.mp hm
            have hqz : q ∈ zs := List.mem_of_mem_filter hq
            have hqin := List.of_mem_filter hq
            by_contra hbe
            have hpm : p.1 = m := by
              cases hb : (p.1 == m) with
              | true => exact beq_iff_eq.mp hb
              | false => exact absurd hb hbe
            have : p = q := eq_of_fst_eq_of_nodup hnd hpz hqz (hpm.trans hqe.symm)
            rw [this] at hpout
            simp [hqin] at hpout
          have hfinal : getV stf (RKey.unack Q.name) =
              (if zs.filter (fun p => !(decide (0 ≤ p.2) && decide (p.2 ≤ now))) = [] then none
               else some (RVal.zset
                 (zs.filter (fun p => !(decide (0 ≤ p.2) && decide (p.2 ≤ now)))))) := by
            rw [hstf]; exact getV_putZ_self st' _ _
          by_cases hfemp : zs.filter (fun p => !(decide (0 ≤ p.2) && decide (p.2 ≤ now))) = []
          · have hnone2 : getV stf (RKey.unack Q.name) = none := by
              rw [hfinal, if_pos hfemp]
            simp [zmem, hnone2]
          · have hsome2 : getV stf (RKey.unack Q.name) = some (RVal.zset
                (zs.filter (fun p => !(decide (0 ≤ p.2) && decide (p.2 ≤ now))))) := by
              rw [hfinal, if_neg hfemp]
            simp only [zmem, hsome2]
            apply List.any_eq_false.mpr
            intro p hp
            simp [hmem p hp]

/-- Store for the C2 witness: "a" (score 3, budget 2) and "b" (score 4,
budget 0) are both eligible in unack at `now = 10`. -/
def c2wStore : Store := [(.unack "q", .zset [("a", 3), ("b", 4)]),
  (.retryCnt "q", .hash [("a", 2), ("b", 0)])]

/-- Witness for C2's amended claim at a concrete input: "a" is decremented
and moved to the retry list, "b" loses its hash entry and joins garbage,
and both leave unack. -/
theorem c2_witness :
    ∃ stf, unack2Retry sampleQ 10 c2wStore = (stf, none) ∧
      hget stf (RKey.retryCnt "q") "a" = some 1 ∧
      lmem stf (RKey.retryL "q") "a" = true ∧
      hget stf (RKey.retryCnt "q") "b" = none ∧
      smem stf (RKey.garbage "q") "b" = true ∧
      zmem stf (RKey.unack "q") "a" = false ∧
      zmem stf (RKey.unack "q") "b" = false := by
  have h := ((c2_unack2Retry_spec sampleQ 10 c2wStore).2 [("a", 3), ("b", 4)]
    rfl (by decide)).2 ["a", "b"] (by decide) (by decide) rfl rfl
  obtain ⟨stf, hrun, hmain, hrem⟩ := h
  have ha := hmain "a" 2 (by decide) rfl
  have hb := hmain "b" 0 (by decide) rfl
  obtain ⟨ha1, ha2⟩ := ha.1 (by norm_num)
  obtain ⟨hb1, hb2⟩ := hb.2 (by norm_num)
  exact ⟨stf, hrun, ha1, ha2, hb1, hb2, hrem "a" (by decide), hrem "b" (by decide)⟩

/-! ## Structural invariants of reachable stores (C7) -/

theorem zinsert_perm (e : String × Int) (l : List (String × Int)) :
    List.Perm (zinsert e l) (e :: l) := by
  induction l with
  | nil => exact List.Perm.refl _
  | cons x xs ih =>
    unfold zinsert
    by_cases hz : zless e x
    · simp [hz]
    · simp only [hz, if_false]
      exact (ih.cons x).trans (List.Perm.swap e x xs)

theorem zaddList_nodup {zs : List (String × Int)} (h : (zs.map Prod.fst).Nodup)
    (s : Int) (m : String) : ((zaddList zs s m).map Prod.fst).Nodup := by
  have hperm : List.Perm ((zaddList zs s m).map Prod.fst)
      (((m, s) :: zs.filter (fun p => !(p.1 == m))).map Prod.fst) :=
    (zinsert_perm (m, s) _).map Prod.fst
  apply hperm.nodup_iff.mpr
  rw [List.map_cons, List.nodup_cons]
  constructor
  · intro hmem
    obtain ⟨p, hp, hpe⟩ := List.mem_map.mp hmem
    have := List.of_mem_filter hp
    simp [hpe] at this
  · exact List.Nodup.sublist (List.Sublist.map Prod.fst (List.filter_sublist zs)) h

theorem nodup_filter_zs {zs : List (String × Int)} {p : String × Int → Bool}
    (h : (zs.map Prod.fst).Nodup) : ((zs.filter p).map Prod.fst).Nodup :=
  List.Nodup.sublist (List.Sublist.map Prod.fst (List.filter_sublist zs)) h

theorem hset_ok_fields {st st' : Store} {k : RKey} {f : String} {v : Int}
    (h : hset st k f v = .ok st') :
    hget st' k f = some v ∧ (∀ f', f' ≠ f → hget st' k f' = hget st k f') := by
  unfold hset at h
  split at h
  · next hv =>
    cases h
    constructor
    · simp [hget, getV_setV_self, hfield, List.find?]
    · intro f' hf'
      have hff : (f == f') = false := by
        simp only [beq_eq_false_iff_ne, ne_eq]
        exact fun hc => hf' hc.symm
      simp [hget, getV_setV_self, hfield, List.find?, hff, hv]
  · next h0 hv =>
    cases h
    constructor
    · simp [hget, getV_setV_self, hfield_hfieldSet_self]
    · intro f' hf'
      simp [hget, getV_setV_self, hfield_hfieldSet_ne _ hf', hv]
  · simp at h

theorem hdel_ok_fields {st st' : Store} {k : RKey} {f : String}
    (h : hdel st k f = .ok st') :
    hget st' k f = none ∧ (∀ f', f' ≠ f → hget st' k f' = hget st k f') := by
  unfold hdel at h
  split at h
  · next hv =>
    cases h
    exact ⟨by simp [hget, hv], fun f' _ => rfl⟩
  · next h0 hv =>
    cases h
    constructor
    · by_cases hemp : h0.filter (fun p => !(p.1 == f)) = []
      · simp [hget, getV_putH_self, hemp]
      · simp [hget, getV_putH_self, hemp, hfield_filter_self]
    · intro f' hf'
      by_cases hemp : h0.filter (fun p => !(p.1 == f)) = []
      · have h2 := hfield_filter_ne h0 hf'
        rw [hemp] at h2
        have h3 : hfield h0 f' = none := by
          rw [← h2]; simp [hfield, List.find?]
        simp [hget, getV_putH_self, hemp, hv, h3]
      · simp [hget, getV_putH_self, hemp, hv, hfield_filter_ne h0 hf']
  · simp at h

theorem sadd_ok_mem {st st' : Store} {k : RKey} {m : String}
    (h : sadd st k m = .ok st') :
    smem st' k m = true ∧ (∀ y, smem st' k y = true → smem st k y = true ∨ y = m) := by
  unfold sadd at h
  split at h
  · next hv =>
    cases h
    constructor
    · simp [smem, getV_setV_self]
    · intro y hy
      simp [smem, getV_setV_self] at hy
      exact Or.inr hy
  · next s0 hv =>
    cases h
    constructor
    · by_cases hm : s0.contains m = true
      · have hm' : m ∈ s0 := by simpa using hm
        simp [smem, getV_setV_self, hm, hm']
      · have hm' : ¬ m ∈ s0 := by simpa using hm
        simp [smem, getV_setV_self, hm, hm']
    · intro y hy
      by_cases hm : s0.contains m = true
      · have hm' : m ∈ s0 := by simpa using hm
        simp [smem, getV_setV_self, hm, hm'] at hy
        exact Or.inl (by simp [smem, hv, hy])
      · have hm' : ¬ m ∈ s0 := by simpa using hm
        simp [smem, getV_setV_self, hm, hm'] at hy
        rcases hy with h1 | h1
        · exact Or.inr h1
        · exact Or.inl (by simp [smem, hv, h1])
  · simp at h

theorem srem_ok_mem {st st' : Store} {k : RKey} {ms : List String}
    (h : srem st k ms = .ok st') :
    ∀ y, smem st' k y = true → smem st k y = true := by
  unfold srem at h
  split at h
  · cases h; exact fun y hy => hy
  · next s0 hv =>
    cases h
    intro y hy
    have hput := getV_putS_self st k (s0.filter (fun x => !(ms.contains x)))
    by_cases hemp : s0.filter (fun x => !(ms.contains x)) = []
    · rw [if_pos hemp] at hput
      simp only [smem, hput] at hy
      exact absurd hy (by simp)
    · rw [if_neg hemp] at hput
      simp only [smem, hput] at hy
      have hyf : y ∈ s0.filter (fun x => !(ms.contains x)) := by simpa using hy
      have := List.mem_of_mem_filter hyf
      simp [smem, hv, this]
  · simp at h

/-- `pending2Ready` never writes: with only two keys supplied, the script
either sees an empty eligible set (nil return) or aborts before its first
write — so the resulting store is always the input store. -/
theorem pending2Ready_state (Q : DelayQueue) (now : Int) (st : Store) :
    (pending2Ready Q now st).1 = st := by
  unfold pending2Ready pending2ReadyScript keyAt
  simp only [List.get?]
  cases hz : zrangebyscore st (RKey.ready Q.name) 0 now with
  | error e => rfl
  | ok msgs =>
    by_cases hm : msgs = []
    · simp [hm]
    · simp [hm]

/-- The invariant of C7 bundled with the structural fact that makes it
inductive: (1) every id with a retry-count hash entry is not in the
garbage set, and (2) the unack sorted set has duplicate-free members. -/
def GoodQ (q : String) (st : Store) : Prop :=
  (∀ id, hget st (RKey.retryCnt q) id ≠ none → smem st (RKey.garbage q) id = false) ∧
  (∀ zs, getV st (RKey.unack q) = some (RVal.zset zs) → (zs.map Prod.fst).Nodup)

theorem zadd_unack_good {q : String} {st st' : Store} {s : Int} {m : String}
    (h : zadd st (RKey.unack q) s m = .ok st') (hg : GoodQ q st) : GoodQ q st' := by
  have hcu : RKey.retryCnt q ≠ RKey.unack q := by simp
  have hgu : RKey.garbage q ≠ RKey.unack q := by simp
  constructor
  · intro id hid
    rw [hget_congr (zadd_frame h hcu) id] at hid
    rw [smem_congr (zadd_frame h hgu) id]
    exact hg.1 id hid
  · intro zs' hzs'
    unfold zadd at h
    split at h
    · next hv =>
      cases h
      rw [getV_setV_self] at hzs'
      cases hzs'
      exact zaddList_nodup (by simp) s m
    · next zs hv =>
      cases h
      rw [getV_setV_self] at hzs'
      cases hzs'
      exact zaddList_nodup (hg.2 zs hv) s m
    · simp at h

theorem zrem_unack_good {q : String} {st st' : Store} {m : String}
    (h : zrem st (RKey.unack q) m = .ok st') (hg : GoodQ q st) : GoodQ q st' := by
  have hcu : RKey.retryCnt q ≠ RKey.unack q := by simp
  have hgu : RKey.garbage q ≠ RKey.unack q := by simp
  constructor
  · intro id hid
    rw [hget_congr (zrem_frame h hcu) id] at hid
    rw [smem_congr (zrem_frame h hgu) id]
    exact hg.1 id hid
  · intro zs' hzs'
    unfold zrem at h
    split at h
    · next hv => cases h; rw [hv] at hzs'; cases hzs'
    · next zs hv =>
      cases h
      rw [getV_putZ_self] at hzs'
      split at hzs'
      · cases hzs'
      · cases hzs'
        exact nodup_filter_zs (hg.2 zs hv)
    · simp at h

theorem zremrange_unack_good {q : String} {st st' : Store} {lo hi : Int}
    (h : zremrangebyscore st (RKey.unack q) lo hi = .ok st') (hg : GoodQ q st) :
    GoodQ q st' := by
  have hcu : RKey.retryCnt q ≠ RKey.unack q := by simp
  have hgu : RKey.garbage q ≠ RKey.unack q := by simp
  constructor
  · intro id hid
    rw [hget_congr (zremrangebyscore_frame h hcu) id] at hid
    rw [smem_congr (zremrangebyscore_frame h hgu) id]
    exact hg.1 id hid
  · intro zs' hzs'
    unfold zremrangebyscore at h
    split at h
    · next hv => cases h; rw [hv] at hzs'; cases hzs'
    · next zs hv =>
      cases h
      rw [getV_putZ_self] at hzs'
      split at hzs'
      · cases hzs'
      · cases hzs'
        exact nodup_filter_zs (hg.2 zs hv)
    · simp at h

/-- The store a script run left behind (also on failure). -/
def scriptOutStore : ScriptOut → Store
  | .ok _ st => st
  | .fail _ st => st

/-- The store a pop left behind. -/
def popOutStore : PopOut → Store
  | .nilP st => st
  | .gotP _ st => st
  | .errP _ st => st

theorem zip_map_self {α β : Type} (f : α → β) (l : List α) :
    l.zip (l.map f) = l.map (fun x => (x, f x)) := by
  induction l with
  | nil => rfl
  | cons a t ih => simp [ih]

/-- The per-id loop of `unack2RetryScript` preserves `GoodQ`, including on
the abort path: each id whose pair carries a positive count has a live
hash entry (so `HIncrBy` never resurrects a garbage id), and the
`count ≤ 0` branch deletes the hash entry in the same step that adds the
id to garbage. -/
theorem u2rLoop_good (q : String) :
    ∀ (pairs : List (String × Option Int)) (st : Store),
      (pairs.map Prod.fst).Nodup →
      (∀ k c, (k, some c) ∈ pairs → 0 < c → hget st (RKey.retryCnt q) k ≠ none) →
      GoodQ q st →
      GoodQ q (scriptOutStore
        (u2rLoop (RKey.retryCnt q) (RKey.retryL q) (RKey.garbage q) pairs st)) := by
  intro pairs
  induction pairs with
  | nil => intro st _ _ hg; exact hg
  | cons p rest ih =>
    obtain ⟨k, v⟩ := p
    intro st hnd hcons hg
    rw [List.map_cons, List.nodup_cons] at hnd
    cases v with
    | none => exact hg
    | some c =>
      by_cases hc : 0 < c
      · have hex : hget st (RKey.retryCnt q) k ≠ none :=
          hcons k c (List.mem_cons_self _ _) hc
        obtain ⟨c0, hc0⟩ := Option.ne_none_iff_exists'.mp hex
        obtain ⟨stA, hokA, hgA, hfrA, hkA, _⟩ := hincrby_ok_of_field hc0 (-1)
        have hgoodA : GoodQ q stA := by
          constructor
          · intro id hid
            rw [smem_congr (hkA _ (by simp)) id]
            by_cases hik : id = k
            · subst hik; exact hg.1 id hex
            · rw [hfrA id hik] at hid; exact hg.1 id hid
          · intro zs hzs
            rw [hkA _ (by simp)] at hzs
            exact hg.2 zs hzs
        cases hlp : lpush stA (RKey.retryL q) [k] with
        | error e =>
          simp only [u2rLoop, hc, if_true, hokA, hlp]
          exact hgoodA
        | ok stB =>
          have hgoodB : GoodQ q stB := by
            constructor
            · intro id hid
              rw [hget_congr (lpush_frame hlp (by simp)) id] at hid
              rw [smem_congr (lpush_frame hlp (by simp)) id]
              exact hgoodA.1 id hid
            · intro zs hzs
              rw [lpush_frame hlp (by simp)] at hzs
              exact hgoodA.2 zs hzs
          have hconsB : ∀ k0 c0, (k0, some c0) ∈ rest → 0 < c0 →
              hget stB (RKey.retryCnt q) k0 ≠ none := by
            intro k0 c0 hm hpos
            have hk0 : k0 ≠ k := by
              intro he
              apply hnd.1
              rw [← he]
              have hmm2 := List.mem_map_of_mem Prod.fst hm
              simpa using hmm2
            rw [hget_congr (lpush_frame hlp (by simp)) k0, hfrA k0 hk0]
            exact hcons k0 c0 (List.mem_cons_of_mem _ hm) hpos
          have hrec := ih stB hnd.2 hconsB hgoodB
          simpa only [u2rLoop, hc, if_true, hokA, hlp] using hrec
      · cases hdl : hdel st (RKey.retryCnt q) k with
        | error e =>
          simp only [u2rLoop, hc, if_false, hdl]
          exact hg
        | ok stA =>
          obtain ⟨hdelf, hfrA⟩ := hdel_ok_fields hdl
          have hgoodA : GoodQ q stA := by
            constructor
            · intro id hid
              have hik : id ≠ k := fun he => by rw [he, hdelf] at hid; exact hid rfl
              rw [hfrA id hik] at hid
              rw [smem_congr (hdel_frame hdl (by simp)) id]
              exact hg.1 id hid
            · intro zs hzs
              rw [hdel_frame hdl (by simp)] at hzs
              exact hg.2 zs hzs
          cases hsd : sadd stA (RKey.garbage q) k with
          | error e =>
            simp only [u2rLoop, hc, if_false, hdl, hsd]
            exact hgoodA
          | ok stB =>
            obtain ⟨hsmemB, hsfromB⟩ := sadd_ok_mem hsd
            have hgoodB : GoodQ q stB := by
              constructor
              · intro id hid
                rw [hget_congr (sadd_frame hsd (by simp)) id] at hid
                have hik : id ≠ k := fun he => by
                  rw [he, hdelf] at hid; exact hid rfl
                cases hsb : smem stB (RKey.garbage q) id with
                | false => rfl
                | true =>
                  rcases hsfromB id hsb with hA | hE
                  · have hfalse := hgoodA.1 id hid
                    rw [hfalse] at hA
                    exact Bool.noConfusion hA
                  · exact absurd hE hik
              · intro zs hzs
                rw [sadd_frame hsd (by simp)] at hzs
                exact hgoodA.2 zs hzs
            have hconsB : ∀ k0 c0, (k0, some c0) ∈ rest → 0 < c0 →
                hget stB (RKey.retryCnt q) k0 ≠ none := by
              intro k0 c0 hm hpos
              have hk0 : k0 ≠ k := by
                intro he
                apply hnd.1
                rw [← he]
                have hmm2 := List.mem_map_of_mem Prod.fst hm
                simpa using hmm2
              rw [hget_congr (sadd_frame hsd (by simp)) k0, hfrA k0 hk0]
              exact hcons k0 c0 (List.mem_cons_of_mem _ hm) hpos
            have hrec := ih stB hnd.2 hconsB hgoodB
            simpa only [u2rLoop, hc, if_false, hdl, hsd] using hrec

/-- Deleting payload keys preserves `GoodQ`. -/
theorem delKeys_msg_good {q : String} {st : Store} (ids : List String)
    (hg : GoodQ q st) : GoodQ q (delKeys st (ids.map (fun id => RKey.msg q id))) := by
  have hfrC : ∀ k ∈ ids.map (fun id => RKey.msg q id), RKey.retryCnt q ≠ k := by
    intro k hk
    obtain ⟨x, _, rfl⟩ := List.mem_map.mp hk
    simp
  have hfrG : ∀ k ∈ ids.map (fun id => RKey.msg q id), RKey.garbage q ≠ k := by
    intro k hk
    obtain ⟨x, _, rfl⟩ := List.mem_map.mp hk
    simp
  have hfrU : ∀ k ∈ ids.map (fun id => RKey.msg q id), RKey.unack q ≠ k := by
    intro k hk
    obtain ⟨x, _, rfl⟩ := List.mem_map.mp hk
    simp
  constructor
  · intro id hid
    rw [hget_congr (delKeys_frame hfrC st) id] at hid
    rw [smem_congr (delKeys_frame hfrG st) id]
    exact hg.1 id hid
  · intro zs hzs
    rw [delKeys_frame hfrU st] at hzs
    exact hg.2 zs hzs

/-- Removing a retry-count hash entry preserves `GoodQ`. -/
theorem hdel_cnt_good {q : String} {st st' : Store} {f : String}
    (h : hdel st (RKey.retryCnt q) f = .ok st') (hg : GoodQ q st) : GoodQ q st' := by
  obtain ⟨hdelf, hfr⟩ := hdel_ok_fields h
  constructor
  · intro id hid
    have hik : id ≠ f := fun he => by rw [he, hdelf] at hid; exact hid rfl
    rw [hfr id hik] at hid
    rw [smem_congr (hdel_frame h (by simp)) id]
    exact hg.1 id hid
  · intro zs hzs
    rw [hdel_frame h (by simp)] at hzs
    exact hg.2 zs hzs

/-- `SendScheduleMsg` preserves `GoodQ` for a fresh id (one that is not in
the garbage set — guaranteed in the real system by UUID freshness). -/
theorem send_good {Q : DelayQueue} {payload : String} {t now : Int}
    {opts : List SendOpt} {id : String} {f : SendFaults} {st : Store}
    (hfresh : smem st (RKey.garbage Q.name) id = false) (hg : GoodQ Q.name st) :
    GoodQ Q.name (sendScheduleMsg Q payload t now opts id f st).1 := by
  unfold sendScheduleMsg
  by_cases h1 : f.fSet = true
  · simp only [h1, if_true]; exact hg
  · simp only [h1, Bool.false_eq_true, if_false]
    have hmsgC : RKey.retryCnt Q.name ≠ RKey.msg Q.name id := by simp
    have hmsgG : RKey.garbage Q.name ≠ RKey.msg Q.name id := by simp
    have hmsgU : RKey.unack Q.name ≠ RKey.msg Q.name id := by simp
    have hg1 : GoodQ Q.name (setStr st (RKey.msg Q.name id) payload ((t - now) + Q.msgTTL)) := by
      constructor
      · intro id0 hid0
        unfold setStr at hid0 ⊢
        rw [hget_congr (getV_setV_ne st _ hmsgC) id0] at hid0
        rw [smem_congr (getV_setV_ne st _ hmsgG) id0]
        exact hg.1 id0 hid0
      · intro zs hzs
        unfold setStr at hzs
        rw [getV_setV_ne st _ hmsgU] at hzs
        exact hg.2 zs hzs
    have hfresh1 : smem (setStr st (RKey.msg Q.name id) payload ((t - now) + Q.msgTTL))
        (RKey.garbage Q.name) id = false := by
      unfold setStr
      rw [smem_congr (getV_setV_ne st _ hmsgG) id]
      exact hfresh
    by_cases h2 : f.fHSet = true
    · simp only [h2, if_true]; exact hg1
    · simp only [h2, Bool.false_eq_true, if_false]
      cases hhs : hset (setStr st (RKey.msg Q.name id) payload ((t - now) + Q.msgTTL))
          (RKey.retryCnt Q.name) id ((parseRetryCount Q.defaultRetryCount opts : Nat) : Int) with
      | error e => exact hg1
      | ok st2 =>
        obtain ⟨hsetf, hfr2⟩ := hset_ok_fields hhs
        have hg2 : GoodQ Q.name st2 := by
          constructor
          · intro id0 hid0
            rw [smem_congr (hset_frame hhs (by simp)) id0]
            by_cases hik : id0 = id
            · subst hik; exact hfresh1
            · rw [hfr2 id0 hik] at hid0
              exact hg1.1 id0 hid0
          · intro zs hzs
            rw [hset_frame hhs (by simp)] at hzs
            exact hg1.2 zs hzs
        by_cases h3 : f.fZAdd = true
        · simp only [h3, if_true]; exact hg2
        · simp only [h3, Bool.false_eq_true, if_false]
          cases hza : zadd st2 (RKey.pending Q.name) t id with
          | error e => exact hg2
          | ok st3 =>
            constructor
            · intro id0 hid0
              rw [hget_congr (zadd_frame hza (by simp)) id0] at hid0
              rw [smem_congr (zadd_frame hza (by simp)) id0]
              exact hg2.1 id0 hid0
            · intro zs hzs
              rw [zadd_frame hza (by simp)] at hzs
              exact hg2.2 zs hzs

/-- `ack` preserves `GoodQ` under any fault pattern. -/
theorem ack_good {Q : DelayQueue} {id : String} {f : AckFaults} {st : Store}
    (hg : GoodQ Q.name st) : GoodQ Q.name (ack Q id f st).1 := by
  unfold ack
  by_cases h1 : f.fZRem = true
  · simp only [h1, if_true]; exact hg
  · simp only [h1, Bool.false_eq_true, if_false]
    cases hzr : zrem st (RKey.unack Q.name) id with
    | error e => exact hg
    | ok st1 =>
      have hg1 : GoodQ Q.name st1 := zrem_unack_good hzr hg
      have hg2 : GoodQ Q.name (if f.fDel then st1 else delV st1 (RKey.msg Q.name id)) := by
        by_cases h2 : f.fDel = true
        · simpa only [h2, if_true] using hg1
        · simp only [h2, Bool.false_eq_true, if_false]
          constructor
          · intro id0 hid0
            rw [hget_congr (getV_delV_ne st1 (by simp)) id0] at hid0
            rw [smem_congr (getV_delV_ne st1 (by simp)) id0]
            exact hg1.1 id0 hid0
          · intro zs hzs
            rw [getV_delV_ne st1 (by simp)] at hzs
            exact hg1.2 zs hzs
      by_cases h3 : f.fHDel = true
      · simp only [h3, if_true]; exact hg2
      · simp only [h3, Bool.false_eq_true, if_false]
        cases hhd : hdel (if f.fDel then st1 else delV st1 (RKey.msg Q.name id))
            (RKey.retryCnt Q.name) id with
        | error e => exact hg2
        | ok s => exact hdel_cnt_good hhd hg2

/-- `nack` preserves `GoodQ`. -/
theorem nack_good {Q : DelayQueue} {id : String} {now : Int} {st : Store}
    (hg : GoodQ Q.name st) : GoodQ Q.name (nack Q id now st).1 := by
  unfold nack
  cases hza : zadd st (RKey.unack Q.name) now id with
  | error e => exact hg
  | ok st' => exact zadd_unack_good hza hg

/-- `ready2Unack` / `retry2Unack` preserve `GoodQ` for a source key other
than the hash/garbage/unack keys. -/
theorem list2Unack_good {Q : DelayQueue} {src : RKey} {now : Int} {st : Store}
    (hsC : RKey.retryCnt Q.name ≠ src) (hsG : RKey.garbage Q.name ≠ src)
    (hsU : RKey.unack Q.name ≠ src) (hg : GoodQ Q.name st) :
    GoodQ Q.name (popOutStore (list2Unack Q src now st)) := by
  cases hrp : rpop st src with
  | error e =>
    have he : list2Unack Q src now st = .errP ("ready2UnackScript failed " ++ e) st := by
      simp [list2Unack, ready2UnackScript, keyAt, hrp]
    rw [he]; exact hg
  | ok r =>
    obtain ⟨om, st1⟩ := r
    have hg1 : GoodQ Q.name st1 := by
      constructor
      · intro id0 hid0
        rw [hget_congr (rpop_frame hrp hsC) id0] at hid0
        rw [smem_congr (rpop_frame hrp hsG) id0]
        exact hg.1 id0 hid0
      · intro zs hzs
        rw [rpop_frame hrp hsU] at hzs
        exact hg.2 zs hzs
    cases om with
    | none =>
      have he : list2Unack Q src now st = .nilP st1 := by
        simp [list2Unack, ready2UnackScript, keyAt, hrp]
      rw [he]; exact hg1
    | some m =>
      cases hza : zadd st1 (RKey.unack Q.name) (now + Q.maxConsumeDuration) m with
      | error e =>
        have he : list2Unack Q src now st =
            .errP ("ready2UnackScript failed " ++ e) st1 := by
          simp [list2Unack, ready2UnackScript, keyAt, hrp, hza]
        rw [he]; exact hg1
      | ok st2 =>
        have he : list2Unack Q src now st = .gotP m st2 := by
          simp [list2Unack, ready2UnackScript, keyAt, hrp, hza]
        rw [he]; exact zadd_unack_good hza hg1

/-- `unack2Retry` preserves `GoodQ`, including when the script aborts on a
missing retry-count entry. -/
theorem unack2Retry_good (Q : DelayQueue) (now : Int) (st : Store)
    (hg : GoodQ Q.name st) : GoodQ Q.name (unack2Retry Q now st).1 := by
  unfold unack2Retry unack2RetryScript keyAt
  simp only [List.get?]
  cases hv : getV st (RKey.unack Q.name) with
  | none =>
    simp [zrangebyscore, hv]
    exact hg
  | some v0 =>
    cases v0 with
    | zset zs =>
      have hzr : zrangebyscore st (RKey.unack Q.name) 0 now =
          .ok ((zs.filter (fun p => decide (0 ≤ p.2) && decide (p.2 ≤ now))).map (·.1)) := by
        simp [zrangebyscore, hv]
      rw [hzr]
      set msgs := (zs.filter (fun p => decide (0 ≤ p.2) && decide (p.2 ≤ now))).map (·.1)
        with hmsgs
      by_cases hm : msgs = []
      · simp only [hm, if_true]; exact hg
      · simp only [hm, if_false]
        have hmsgsnd : msgs.Nodup := by
          rw [hmsgs]
          exact List.Nodup.sublist (List.Sublist.map _ (List.filter_sublist zs))
            (hg.2 zs hv)
        cases hmg : hmget st (RKey.retryCnt Q.name) msgs with
        | error e => exact hg
        | ok counts =>
          have hcounts : counts = msgs.map (hget st (RKey.retryCnt Q.name)) := by
            unfold hmget at hmg
            split at hmg
            · next hw =>
              cases hmg
              have hmc : ∀ l : List String, l.map (hget st (RKey.retryCnt Q.name)) =
                  l.map (fun _ => (none : Option Int)) := by
                intro l
                induction l with
                | nil => rfl
                | cons a t iht => simp [hget, hw, iht]
              exact (hmc msgs).symm
            · next h0 hw => cases hmg; simp [hget, hw]
            · simp at hmg
          have hndp : ((msgs.zip counts).map Prod.fst).Nodup := by
            rw [hcounts, zip_map_self, List.map_map]
            have hcompid : (Prod.fst ∘ fun x : String =>
                (x, hget st (RKey.retryCnt Q.name) x)) = fun x => x := rfl
            rw [hcompid, List.map_id']
            exact hmsgsnd
          have hconsp : ∀ k c, (k, some c) ∈ msgs.zip counts → 0 < c →
              hget st (RKey.retryCnt Q.name) k ≠ none := by
            intro k c hkc _
            rw [hcounts, zip_map_self] at hkc
            obtain ⟨x, _, hxe⟩ := List.mem_map.mp hkc
            have h1 : x = k := congrArg Prod.fst hxe
            have h2 : hget st (RKey.retryCnt Q.name) x = some c := by
              simpa using congrArg Prod.snd hxe
            subst h1
            rw [h2]
            simp
          have hloop := u2rLoop_good Q.name (msgs.zip counts) st hndp hconsp hg
          cases hlr : u2rLoop (RKey.retryCnt Q.name) (RKey.retryL Q.name)
              (RKey.garbage Q.name) (msgs.zip counts) st with
          | fail e1 st1 =>
            rw [hlr] at hloop
            simpa [scriptOutStore, hlr] using hloop
          | ok r1 st1 =>
            rw [hlr] at hloop
            simp only [scriptOutStore] at hloop
            simp only [hlr]
            cases hrem : zremrangebyscore st1 (RKey.unack Q.name) 0 now with
            | error e => exact hloop
            | ok st2 => exact zremrange_unack_good hrem hloop
    | list a => simp [zrangebyscore, hv]; exact hg
    | hash a => simp [zrangebyscore, hv]; exact hg
    | set a => simp [zrangebyscore, hv]; exact hg
    | str a b => simp [zrangebyscore, hv]; exact hg

/-- `garbageCollect` preserves `GoodQ`. -/
theorem garbageCollect_good (Q : DelayQueue) (st : Store) (hg : GoodQ Q.name st) :
    GoodQ Q.name (garbageCollect Q st).1 := by
  unfold garbageCollect
  cases hsm : smembers st (RKey.garbage Q.name) with
  | error e => exact hg
  | ok ids =>
    by_cases hi : ids = []
    · simp only [hi, if_true]; exact hg
    · simp only [hi, if_false]
      have hg1 := @delKeys_msg_good Q.name st ids hg
      cases hsr : srem (delKeys st (ids.map (fun id => RKey.msg Q.name id)))
          (RKey.garbage Q.name) ids with
      | error e => exact hg1
      | ok st2 =>
        constructor
        · intro id hid
          rw [hget_congr (srem_frame hsr (by simp)) id] at hid
          cases hb : smem st2 (RKey.garbage Q.name) id with
          | false => rfl
          | true =>
            have hA := srem_ok_mem hsr id hb
            have hfalse := hg1.1 id hid
            rw [hfalse] at hA
            exact Bool.noConfusion hA
        · intro zs hzs
          rw [srem_frame hsr (by simp)] at hzs
          exact hg1.2 zs hzs

/-- Stores reachable by this code base for one queue handle: the empty
store, closed under every operation that touches the store — `Send*` (with
an id that is not already in the garbage set, which the freshly random
UUID guarantees), `ack`, `nack`, and the five transitions T1–T4
(`pending2Ready`, `ready2Unack`, `retry2Unack`, `unack2Retry`,
`garbageCollect`), each under any fault pattern and including the partial
stores left behind by a mid-script abort.  `consume` is a composition of
these operations, so its intermediate and final stores are all covered. -/
inductive Reach (Q : DelayQueue) : Store → Prop where
  | init : Reach Q []
  | send (payload : String) (t now : Int) (opts : List SendOpt) (id : String)
      (f : SendFaults) {st : Store} (hr : Reach Q st)
      (hfresh : smem st (RKey.garbage Q.name) id = false) :
      Reach Q (sendScheduleMsg Q payload t now opts id f st).1
  | ackR (id : String) (f : AckFaults) {st : Store} (hr : Reach Q st) :
      Reach Q (ack Q id f st).1
  | nackR (id : String) (now : Int) {st : Store} (hr : Reach Q st) :
      Reach Q (nack Q id now st).1
  | p2rR (now : Int) {st : Store} (hr : Reach Q st) :
      Reach Q (pending2Ready Q now st).1
  | r2uR (now : Int) {st : Store} (hr : Reach Q st) :
      Reach Q (popOutStore (ready2Unack Q now st))
  | t2uR (now : Int) {st : Store} (hr : Reach Q st) :
      Reach Q (popOutStore (retry2Unack Q now st))
  | u2rR (now : Int) {st : Store} (hr : Reach Q st) :
      Reach Q (unack2Retry Q now st).1
  | gcR {st : Store} (hr : Reach Q st) :
      Reach Q (garbageCollect Q st).1

/-- Every reachable store satisfies the bundled invariant. -/
theorem reach_good (Q : DelayQueue) : ∀ st : Store, Reach Q st → GoodQ Q.name st := by
  intro st hr
  induction hr with
  | init =>
    constructor
    · intro id hid
      simp [hget, getV] at hid
    · intro zs hzs
      simp [getV] at hzs
  | send payload t now opts id f hr hfresh ih => exact send_good hfresh ih
  | ackR id f hr ih => exact ack_good ih
  | nackR id now hr ih => exact nack_good ih
  | p2rR now hr ih => rw [pending2Ready_state]; exact ih
  | r2uR now hr ih =>
    exact list2Unack_good (by simp) (by simp) (by simp) ih
  | t2uR now hr ih =>
    exact list2Unack_good (by simp) (by simp) (by simp) ih
  | u2rR now hr ih => exact unack2Retry_good _ _ _ ih
  | gcR hr ih => exact garbageCollect_good _ _ ih

/-- C7: in every reachable store, an id that has an entry in the
retry-count hash is not a member of the garbage set.  Every operation
preserves this — `Send*` because the freshly generated UUID is not already
in garbage, `ack`/`nack`/T1/T2/T2′/T4 because they never add a retry-count
entry or a garbage member for an id holding the other, and T3 because its
script deletes the retry-count entry in the same atomic step in which it
adds the id to garbage (and only ever decrements counts of ids whose entry
exists). -/
theorem c7_retryCnt_garbage_invariant (Q : DelayQueue) (st : Store)
    (hr : Reach Q st) :
    ∀ id, hget st (RKey.retryCnt Q.name) id ≠ none →
      smem st (RKey.garbage Q.name) id = false :=
  (reach_good Q st hr).1

/-- Witness for C7 at a concrete reachable store: after one fault-free
send of message "a" into the empty store, "a" has a retry-count entry and
is indeed not in the garbage set. -/
theorem c7_witness :
    smem (sendScheduleMsg sampleQ "p" 40 10 [] "a" sendOk []).1
      (RKey.garbage "q") "a" = false := by
  have hreach : Reach sampleQ (sendScheduleMsg sampleQ "p" 40 10 [] "a" sendOk []).1 :=
    Reach.send "p" 40 10 [] "a" sendOk Reach.init rfl
  exact c7_retryCnt_garbage_invariant sampleQ _ hreach "a" (by decide)

end DQ
